import Mathlib

/-
Verification development for the LinkedIn-to-Airtable extension.

The definitions below are a shallow embedding of the JavaScript source:
src/background.js (field mapping, sanitization, type transformation,
schema validation, schema cache, error parsing) and src/content.js
(locator cascades, content validators, the single-flight extraction
guard).  JavaScript values are modelled by the mutual inductive JSVal;
machine details that no claim depends on (IEEE-754 number formatting,
locale Date rendering) are modelled by total stand-ins that are noted
at their definitions.
-/

namespace LinkedInAirtable

/-! ### Character and string primitives

All string logic is carried out on lists of characters so that every
definition is structurally recursive and reduces in the kernel.  JS
regular-expression tests from the source are each implemented as an
executable function faithful to that concrete pattern.
-/

/-- The double-quote character, written via its code point. -/
def dq : Char := Char.ofNat 34

/-- The single-quote character, written via its code point. -/
def sq : Char := Char.ofNat 39

/-- The NUL character removed by sanitizeValue. -/
def nulChar : Char := Char.ofNat 0

/-- Whitespace class of the JS regexes in the source: the common ASCII
whitespace characters.  (JS \s also covers rarer Unicode space
characters; no claim involves them.) -/
def jsIsWS (c : Char) : Bool :=
  c = ' ' || c = Char.ofNat 9 || c = Char.ofNat 10 || c = Char.ofNat 13 ||
  c = Char.ofNat 11 || c = Char.ofNat 12

/-- Is the character a single or double quote (the class ["'] used by
the quote-stripping regexes in background.js). -/
def isQuoteChar (c : Char) : Bool := c = dq || c = sq

/-- Drop leading whitespace. -/
def trimLeftChars (l : List Char) : List Char := l.dropWhile (fun c => jsIsWS c)

/-- Drop trailing whitespace. -/
def trimRightChars (l : List Char) : List Char :=
  (l.reverse.dropWhile (fun c => jsIsWS c)).reverse

/-- JS String.prototype.trim: drop whitespace at both ends. -/
def trimChars (l : List Char) : List Char := trimLeftChars (trimRightChars l)

/-- Run-collapse worker: the flag records whether the previous
character was whitespace (so a continuing run emits nothing). -/
def collapseWSAux : Bool → List Char → List Char
  | _, [] => []
  | prevWS, c :: rest =>
    if jsIsWS c then
      if prevWS then collapseWSAux true rest
      else ' ' :: collapseWSAux true rest
    else c :: collapseWSAux false rest

/-- Collapse every run of whitespace to a single space: the
replace(/\s+/g, " ") steps of sanitizeValue and cleanText. -/
def collapseWSChars (l : List Char) : List Char := collapseWSAux false l

/-- Remove NUL bytes: the replace(/\0/g, "") step of sanitizeValue. -/
def removeNulChars (l : List Char) : List Char := l.filter (fun c => c ≠ nulChar)

/-- The replace(/^["']|["']$/g, "") step of sanitizeValue: remove at
most one leading and at most one trailing quote character.  (The global
regex matches the two anchored alternatives on the original string at
non-overlapping positions, which on a one-character quote string
removes that single character; taking the head first and then the last
of the remainder reproduces that behavior.) -/
def stripQuotePairChars (l : List Char) : List Char :=
  let l1 : List Char := match l with
    | [] => []
    | c :: rest => if isQuoteChar c then rest else c :: rest
  match l1.reverse with
  | [] => []
  | c :: rest => if isQuoteChar c then rest.reverse else (c :: rest).reverse

/-- The replace(/^["']+|["']+$/g, "") step of transformByFieldType:
remove the maximal leading run and the maximal trailing run of quote
characters. -/
def stripQuoteRunsChars (l : List Char) : List Char :=
  let l1 := l.dropWhile (fun c => isQuoteChar c)
  (l1.reverse.dropWhile (fun c => isQuoteChar c)).reverse

/-- Split a character list on a separator character (JS split). -/
def splitOnCharAux (sep : Char) : List Char → List Char → List (List Char)
  | [], acc => [acc.reverse]
  | c :: rest, acc =>
    if c = sep then acc.reverse :: splitOnCharAux sep rest []
    else splitOnCharAux sep rest (c :: acc)

/-- JS String.prototype.split on a single-character separator. -/
def splitOnChar (sep : Char) (l : List Char) : List (List Char) :=
  splitOnCharAux sep l []

/-- Lower-case a character list (adequate for the ASCII text the
case-insensitive regexes of the source are applied to). -/
def lowerChars (l : List Char) : List Char := l.map Char.toLower

/-- Does the haystack contain the needle as a contiguous sublist
(JS String.prototype.includes)? -/
def containsSubChars (needle : List Char) : List Char → Bool
  | [] => needle.isEmpty
  | c :: rest => needle.isPrefixOf (c :: rest) || containsSubChars needle rest

/-- Case-insensitive contiguous containment, for the /.../i substring
tests of the source. -/
def containsSubCI (needle hay : List Char) : Bool :=
  containsSubChars (lowerChars needle) (lowerChars hay)

/-- Case-insensitive prefix test. -/
def startsWithCI (pat hay : List Char) : Bool :=
  (lowerChars pat).isPrefixOf (lowerChars hay)

/-- Case-insensitive suffix test. -/
def endsWithCI (pat hay : List Char) : Bool :=
  (lowerChars pat).reverse.isPrefixOf (lowerChars hay).reverse

/-- Case-insensitive whole-string equality. -/
def eqCI (a b : List Char) : Bool := lowerChars a = lowerChars b

/-- String wrapper: JS trim. -/
def jsTrim (s : String) : String := String.mk (trimChars s.data)

/-- String wrapper: prefix test (JS startsWith). -/
def jsStartsWith (s pat : String) : Bool := pat.data.isPrefixOf s.data

/-- String wrapper: substring containment (JS includes). -/
def jsIncludes (s pat : String) : Bool := containsSubChars pat.data s.data

/-! ### The JS value model

A mutual inductive so that all traversals are structurally recursive
and kernel-reducible.  vNum carries a rational: the source only ever
compares, passes through, or parses numbers, and no claim depends on
IEEE-754 rounding.  vDate models a JS Date object carrying its ISO
serialization. -/

mutual
inductive JSVal where
  | vNull
  | vUndefined
  | vBool (b : Bool)
  | vNum (n : Rat)
  | vStr (s : String)
  | vDate (iso : String)
  | vArr (elems : JSList)
  | vObj (props : JSProps)
deriving Repr, DecidableEq
inductive JSList where
  | nil
  | cons (hd : JSVal) (tl : JSList)
deriving Repr, DecidableEq
inductive JSProps where
  | nil
  | cons (key : String) (val : JSVal) (tl : JSProps)
deriving Repr, DecidableEq
end

open JSVal

/-- Convert a Lean list of values to the embedded JS array payload. -/
def JSList.ofList : List JSVal → JSList
  | [] => .nil
  | v :: rest => .cons v (JSList.ofList rest)

/-- View the embedded JS array payload as a Lean list. -/
def JSList.toList : JSList → List JSVal
  | .nil => []
  | .cons v rest => v :: JSList.toList rest

/-- Membership in an embedded JS array payload. -/
def JSList.memB (x : JSVal) : JSList → Bool
  | .nil => false
  | .cons v rest => x = v || JSList.memB x rest

/-- JS typeof, rendered as the string the source compares against.
Arrays, plain objects, Date objects and null all report "object". -/
def jsTypeofStr : JSVal → String
  | vNull => "object"
  | vUndefined => "undefined"
  | vBool _ => "boolean"
  | vNum _ => "number"
  | vStr _ => "string"
  | vDate _ => "object"
  | vArr _ => "object"
  | vObj _ => "object"

/-- JS truthiness.  (NaN does not arise: failed numeric parses are
represented by Option, mirroring the isNaN checks of the source.) -/
def jsTruthy : JSVal → Bool
  | vNull => false
  | vUndefined => false
  | vBool b => b
  | vNum n => n ≠ 0
  | vStr s => s ≠ ""
  | vDate _ => true
  | vArr _ => true
  | vObj _ => true

/-- Property read on an object.  Missing keys give undefined; reads on
non-objects give undefined, as in JS for every receiver the source
actually reads from (the source never reads a property of null or
undefined without a truthiness guard). -/
def jsGetProp : JSVal → String → JSVal
  | vObj props, k => go props k
  | _, _ => vUndefined
where
  go : JSProps → String → JSVal
    | .nil, _ => vUndefined
    | .cons key v rest, k => if key = k then v else go rest k

/-- Element rendering inside Array.prototype.toString: null and
undefined render as empty, everything else by the given rendering of
itself. -/
def jsToStringElemFrom (v : JSVal) (rendered : String) : String :=
  match v with
  | vNull => ""
  | vUndefined => ""
  | _ => rendered

mutual
/-- JS ToString as used by the String(value) coercions of the source.
Number formatting is exact for integers; non-integral rationals are
rendered as num/den, a stand-in no claim depends on.  A Date renders
as a nonempty date string; the stand-in wraps its ISO text. -/
def jsToString : JSVal → String
  | vNull => "null"
  | vUndefined => "undefined"
  | vBool b => if b then "true" else "false"
  | vNum n => if n.den = 1 then toString n.num else toString n.num ++ "/" ++ toString n.den
  | vStr s => s
  | vDate iso => "Date(" ++ iso ++ ")"
  | vArr l => jsToStringArr l
  | vObj _ => "[object Object]"
/-- Array ToString: elements joined by commas, null and undefined
rendering as empty. -/
def jsToStringArr : JSList → String
  | .nil => ""
  | .cons v .nil => jsToStringElemFrom v (jsToString v)
  | .cons v rest => jsToStringElemFrom v (jsToString v) ++ "," ++ jsToStringArr rest
end

/-- JS parseFloat on the values the source feeds it.  Exact on numbers
and on plain decimal strings (optional sign, digits, optional fraction,
leading whitespace skipped, trailing junk ignored); exotic inputs
(exponent notation, Infinity, array coercion) parse to none, which the
source treats like NaN.  No claim exercises those inputs. -/
def jsParseFloat : JSVal → Option Rat
  | vNum n => some n
  | vStr s => parseDec (trimLeftChars s.data)
  | _ => none
where
  /-- Accumulating digit reader. -/
  digitsAcc : Nat → Nat → List Char → Nat × Nat × List Char
    | acc, k, [] => (acc, k, [])
    | acc, k, c :: rest =>
      if c.isDigit then digitsAcc (acc * 10 + (c.toNat - 48)) (k + 1) rest
      else (acc, k, c :: rest)
  /-- Parse sign, integer part, optional fractional part. -/
  parseDec (l : List Char) : Option Rat :=
    let (neg, l1) : Bool × List Char := match l with
      | c :: rest => if c = '-' then (true, rest) else if c = '+' then (false, rest) else (false, c :: rest)
      | [] => (false, [])
    let (ip, ik, l2) := digitsAcc 0 0 l1
    match l2 with
    | c :: rest =>
      if c = '.' then
        let (fp, fk, _) := digitsAcc 0 0 rest
        if ik = 0 ∧ fk = 0 then none
        else
          let mag : Rat := (ip : Rat) + (fp : Rat) / ((10 : Rat) ^ fk)
          some (if neg then -mag else mag)
      else if ik = 0 then none else some (if neg then -(ip : Rat) else (ip : Rat))
    | [] => if ik = 0 then none else some (if neg then -(ip : Rat) else (ip : Rat))

/-! ### sanitizeValue and mapContactDataToAirtable (background.js 285-365) -/

/-- The string branch of sanitizeValue: trim, strip one surrounding
quote pair, remove NUL bytes, collapse whitespace runs, cap the length
at 100000 characters. -/
def sanitizeString (s : String) : String :=
  String.mk
    ((collapseWSChars (removeNulChars (stripQuotePairChars (trimChars s.data)))).take 100000)

mutual
/-- background.js sanitizeValue: strings are cleaned, arrays and plain
objects are sanitized recursively, Date objects and remaining types
pass through, null and undefined map to null. -/
def sanitizeValue : JSVal → JSVal
  | vNull => vNull
  | vUndefined => vNull
  | vStr s => vStr (sanitizeString s)
  | vArr l => vArr (sanitizeList l)
  | vObj props => vObj (sanitizeProps props)
  | vBool b => vBool b
  | vNum n => vNum n
  | vDate iso => vDate iso
/-- sanitizeValue mapped over an array. -/
def sanitizeList : JSList → JSList
  | .nil => .nil
  | .cons v rest => .cons (sanitizeValue v) (sanitizeList rest)
/-- sanitizeValue mapped over the values of a plain object. -/
def sanitizeProps : JSProps → JSProps
  | .nil => .nil
  | .cons k v rest => .cons k (sanitizeValue v) (sanitizeProps rest)
end

/-- The built-in canonical-key to Airtable-field-name defaults of
mapContactDataToAirtable. -/
def defaultMappings : List (String × String) :=
  [("fullName", "Name"), ("jobTitle", "Job Title"), ("company", "Company"),
   ("location", "Location"), ("email", "Email"), ("phone", "Phone"),
   ("profileUrl", "LinkedIn URL"), ("profilePicture", "Profile Picture"),
   ("tags", "Tag"), ("notes", "Notes"), ("contactDate", "Contact Date"),
   ("followUpDate", "Follow Up On")]

/-- Association-list update with JS object-assignment semantics: an
existing key is overwritten in place, a new key is appended. -/
def assocSet {α : Type} (l : List (String × α)) (k : String) (v : α) : List (String × α) :=
  if l.any (fun p => p.1 = k) then
    l.map (fun p => if p.1 = k then (k, v) else p)
  else l ++ [(k, v)]

/-- The spread merge of the defaults with the user mapping:
keys of the defaults in order with user values overriding, followed by
user keys that are not defaults.  Models JS object keys, so the user
mapping is read as an association list with first occurrence winning. -/
def mergeMappings (userMappings : List (String × String)) : List (String × String) :=
  defaultMappings.map (fun p => (p.1, ((userMappings.lookup p.1).getD p.2))) ++
    userMappings.filter (fun p => ¬ (defaultMappings.any (fun q => q.1 = p.1)))

/-- Read contactData[dataKey]: a missing key is undefined. -/
def contactVal (contactData : List (String × JSVal)) (k : String) : JSVal :=
  (contactData.lookup k).getD vUndefined

/-- background.js mapContactDataToAirtable: iterate the merged mapping
in key order; a canonical key whose mapped name and value are both
truthy (and the value is not the empty string, a check the truthiness
test already subsumes) contributes the sanitized value under the
mapped name; every other key contributes nothing. -/
def mapContactDataToAirtable (contactData : List (String × JSVal))
    (fieldMappings : List (String × String)) : List (String × JSVal) :=
  (mergeMappings fieldMappings).foldl
    (fun fields p =>
      let v := contactVal contactData p.1
      if p.2 ≠ "" ∧ jsTruthy v ∧ v ≠ vStr "" then
        assocSet fields p.2 (sanitizeValue v)
      else fields)
    []

/-! ### transformByFieldType and transformByHeuristic (background.js 601-761) -/

/-- Length of an embedded JS array. -/
def JSList.length : JSList → Nat
  | .nil => 0
  | .cons _ rest => 1 + JSList.length rest

/-- Bounded universal over an embedded JS array (Array.prototype.every). -/
def JSList.all (p : JSVal → Bool) : JSList → Bool
  | .nil => true
  | .cons v rest => p v && JSList.all p rest

/-- The value.startsWith("http") test of the source. -/
def startsWithHttp (s : String) : Bool := jsStartsWith s "http"

/-- The startsWith("http://") || startsWith("https://") test of the
source (URL-shaped value for linked-record purposes). -/
def startsWithHttpScheme (s : String) : Bool :=
  jsStartsWith s "http://" || jsStartsWith s "https://"

/-- split(",").map(trim).filter(nonempty), the comma-splitting step
shared by the linked-record, multi-select and heuristic branches. -/
def splitTrimFilterStr (s : String) : List String :=
  ((splitOnChar ',' s.data).map (fun l => String.mk (trimChars l))).filter
    (fun t => t ≠ "")

/-- Lift a list of strings to an embedded JS array of strings. -/
def strListToJS (l : List String) : JSList := JSList.ofList (l.map vStr)

/-- The multipleAttachments array mapper of transformByFieldType: an
http-prefixed string becomes an object with a url property, an object
with a truthy url property is kept, everything else is dropped. -/
def attachMapFilter : JSList → JSList
  | .nil => .nil
  | .cons v rest =>
    match v with
    | vStr s =>
      if startsWithHttp s then
        .cons (vObj (.cons "url" (vStr s) .nil)) (attachMapFilter rest)
      else attachMapFilter rest
    | _ =>
      if jsTypeofStr v = "object" ∧ v ≠ vNull ∧ jsTruthy (jsGetProp v "url") then
        .cons v (attachMapFilter rest)
      else attachMapFilter rest

/-- The multipleRecordLinks array filter of transformByFieldType: keep
nonempty strings that are not URL-shaped. -/
def linkIdsFilter : JSList → JSList
  | .nil => .nil
  | .cons v rest =>
    match v with
    | vStr s =>
      if s ≠ "" ∧ ¬ startsWithHttpScheme s then .cons (vStr s) (linkIdsFilter rest)
      else linkIdsFilter rest
    | _ => linkIdsFilter rest

/-- The multipleSelects array branch of transformByFieldType:
map every element through String and keep the truthy (nonempty)
results. -/
def selectsMapFilter : JSList → JSList
  | .nil => .nil
  | .cons v rest =>
    let s := jsToString v
    if s ≠ "" then .cons (vStr s) (selectsMapFilter rest) else selectsMapFilter rest

/-- The strip-quotes-and-trim tail of the singleSelect and text
branches of transformByFieldType: remove runs of surrounding quotes,
then trim. -/
def stripQuotesTrim (s : String) : String :=
  jsTrim (String.mk (stripQuoteRunsChars s.data))

/-- Array.isArray(value) && value.length === 0, the empty-array arm of
the linked-record emptiness test. -/
def isEmptyArrJS (v : JSVal) : Bool :=
  match v with
  | vArr l => JSList.length l = 0
  | _ => false

/-- background.js transformByFieldType.  The JS function signals
exclusion by returning null, which the caller tests with a strict
null comparison, so the embedded function returns a JSVal and vNull
is the exclusion signal. -/
def transformByFieldType (fieldName : String) (value : JSVal) (fieldType : String) : JSVal :=
  match fieldType with
  | "multipleAttachments" =>
    match value with
    | vStr s => if startsWithHttp s then vArr (.cons (vObj (.cons "url" (vStr s) .nil)) .nil)
                else vArr .nil
    | vArr l => vArr (attachMapFilter l)
    | _ => vArr .nil
  | "multipleRecordLinks" =>
    if ¬ jsTruthy value ∨ value = vStr "" ∨ isEmptyArrJS value then vNull
    else
      match value with
      | vArr l =>
        let ids := linkIdsFilter l
        if JSList.length ids = 0 then vNull else vArr ids
      | vStr s =>
        if startsWithHttpScheme s then vNull
        else if containsSubChars [','] s.data then vArr (strListToJS (splitTrimFilterStr s))
        else vArr (.cons (vStr s) .nil)
      | _ => vNull
  | "multipleSelects" =>
    match value with
    | vStr s => vArr (strListToJS (splitTrimFilterStr s))
    | vArr l => vArr (selectsMapFilter l)
    | _ => vArr (.cons (vStr (jsToString value)) .nil)
  | "singleSelect" =>
    let singleValue : String :=
      match value with
      | vArr l =>
        match l with
        | .cons v _ => if jsTruthy v then jsToString v else ""
        | .nil => ""
      | _ => jsToString value
    vStr (stripQuotesTrim singleValue)
  | "multilineText" => vStr (stripQuotesTrim (jsToString value))
  | "singleLineText" => vStr (stripQuotesTrim (jsToString value))
  | "richText" => vStr (stripQuotesTrim (jsToString value))
  | "number" => match jsParseFloat value with | none => vNull | some q => vNum q
  | "currency" => match jsParseFloat value with | none => vNull | some q => vNum q
  | "percent" => match jsParseFloat value with | none => vNull | some q => vNum q
  | "rating" => match jsParseFloat value with | none => vNull | some q => vNum q
  | "checkbox" =>
    match value with
    | vBool b => vBool b
    | vStr s => vBool (lowerChars s.data = "true".data || s = "1")
    | _ => vBool (jsTruthy value)
  | "date" =>
    match value with
    | vDate iso => vStr iso
    | _ => vStr (jsToString value)
  | "dateTime" =>
    match value with
    | vDate iso => vStr iso
    | _ => vStr (jsToString value)
  | "url" => vStr (jsToString value)
  | "email" => vStr (jsToString value)
  | "phoneNumber" => vStr (jsToString value)
  | _ => value

/-- background.js transformByHeuristic, the fallback when no field
type is known: an http string for a picture-named field stays a plain
string, a string for a tag-named field is comma-split when more than
one item results, everything else passes through. -/
def transformByHeuristic (fieldName : String) (value : JSVal) : JSVal :=
  let lowerName := String.mk (lowerChars fieldName.data)
  match value with
  | vStr s =>
    if startsWithHttp s ∧
        (jsIncludes lowerName "picture" ∨ jsIncludes lowerName "photo" ∨
         jsIncludes lowerName "image") then
      vStr (jsToString (vStr s))
    else if jsIncludes lowerName "tag" ∨ jsIncludes lowerName "categor" then
      let items := splitTrimFilterStr s
      if items.length > 1 then vArr (strListToJS items)
      else match items with
        | [single] => vStr single
        | _ => vStr s
    else vStr s
  | _ =>
    if jsIncludes lowerName "tag" ∨ jsIncludes lowerName "categor" then value
    else value

/-! ### transformFieldsForAirtable (background.js 556-596) -/

/-- The empty-value skip test used by both transformFieldsForAirtable
and validateAndFilterFields: null, undefined or the empty string. -/
def isSkipEmpty (v : JSVal) : Bool := v = vNull || v = vUndefined || v = vStr ""

/-- schema[fieldName] read through the truthiness test of the source:
a missing name or an empty type string counts as no type. -/
def truthyLookup (schema : List (String × String)) (n : String) : Option String :=
  match schema.lookup n with
  | some t => if t = "" then none else some t
  | none => none

/-- background.js transformFieldsForAirtable, with the schema the
source fetches passed explicitly (none when the fetch yielded no
schema).  Empty values are skipped; a field with a known type goes
through transformByFieldType and is dropped when that returns the
null exclusion signal; a field without a type goes through
transformByHeuristic.  Entries of a JS object have unique keys, so the
transformedFields[fieldName] assignments build the output in iteration
order and the loop is a filterMap over the entries.  The try/catch of
the source never fires here because the embedded transforms are
total. -/
def transformFieldsForAirtable (fields : List (String × JSVal))
    (schema : Option (List (String × String))) : List (String × JSVal) :=
  fields.filterMap (fun p =>
    if isSkipEmpty p.2 then none
    else
      match schema.bind (fun s => truthyLookup s p.1) with
      | some t =>
        let tv := transformByFieldType p.1 p.2 t
        if tv = vNull then none else some (p.1, tv)
      | none => some (p.1, transformByHeuristic p.1 p.2))

/-! ### validateFieldValue and validateAndFilterFields
(background.js 370-551) -/

/-- Every element is a string (the record-id check). -/
def allStringsJS (l : JSList) : Bool :=
  JSList.all (fun v => jsTypeofStr v = "string") l

/-- Every element is a non-null object whose url property is a string
(the attachment check). -/
def allAttachJS (l : JSList) : Bool :=
  JSList.all (fun v =>
    jsTypeofStr v = "object" && v ≠ vNull &&
    jsTypeofStr (jsGetProp v "url") = "string") l

/-- background.js validateFieldValue: none is a valid verdict, some
carries the reason string of the source.  The try/catch of the source
never fires because every check here is total. -/
def validateFieldValue (fieldName : String) (value : JSVal) (fieldType : String) :
    Option String :=
  match fieldType with
  | "multipleRecordLinks" =>
    match value with
    | vArr l =>
      if allStringsJS l then none else some "All record IDs must be strings"
    | _ => some ("Expected array of record IDs for linked record field, got " ++
        jsTypeofStr value)
  | "multipleAttachments" =>
    match value with
    | vArr l =>
      if allAttachJS l then none
      else some "All attachments must be objects with url property"
    | _ => some ("Expected array of attachment objects, got " ++ jsTypeofStr value)
  | "multipleSelects" =>
    match value with
    | vArr _ => none
    | _ => some ("Expected array of strings for multi-select, got " ++ jsTypeofStr value)
  | "singleSelect" =>
    if jsTypeofStr value = "string" then none
    else some ("Expected string for single select, got " ++ jsTypeofStr value)
  | "number" | "currency" | "percent" | "rating" =>
    if jsTypeofStr value = "number" then none
    else some ("Expected number, got " ++ jsTypeofStr value)
  | "checkbox" =>
    if jsTypeofStr value = "boolean" then none
    else some ("Expected boolean, got " ++ jsTypeofStr value)
  | "singleLineText" | "multilineText" | "richText" | "email" | "url"
  | "phoneNumber" | "date" | "dateTime" =>
    if jsTypeofStr value = "string" then none
    else some ("Expected string, got " ++ jsTypeofStr value)
  | _ => none

/-- An excluded-field diagnostic: the name, the reason string of the
source, the expected type when the source records one, and the
offending value. -/
structure ExcludedField where
  field : String
  reason : String
  expectedType : Option String
  actualValue : JSVal
deriving Repr, DecidableEq

/-- The special shape required of a linked-record value by
validateAndFilterFields: a nonempty array of strings none of which
starts with "http". -/
def isValidLinkedRecordShape (v : JSVal) : Bool :=
  match v with
  | vArr l =>
    JSList.length l > 0 &&
    JSList.all (fun e => match e with
      | vStr s => ¬ startsWithHttp s
      | _ => false) l
  | _ => false

/-- Outcome of validateAndFilterFields for one entry. -/
inductive FieldOutcome where
  | skip
  | valid
  | excluded (e : ExcludedField)
deriving Repr, DecidableEq

/-- The per-entry body of the validateAndFilterFields loop: skip empty
values, accept everything with no schema, exclude names absent from
the schema (the source records no expected type there), run the
special linked-record shape check, then validateFieldValue. -/
def classifyField (schema : Option (List (String × String))) (n : String) (v : JSVal) :
    FieldOutcome :=
  if isSkipEmpty v then .skip
  else
    match schema with
    | none => .valid
    | some s =>
      match truthyLookup s n with
      | none => .excluded ⟨n, "Field does not exist in Airtable table", none, v⟩
      | some t =>
        if t = "multipleRecordLinks" ∧ ¬ isValidLinkedRecordShape v then
          .excluded ⟨n, "Linked record field requires array of record IDs, not URLs or text",
            some t, v⟩
        else
          match validateFieldValue n v t with
          | none => .valid
          | some reason => .excluded ⟨n, reason, some t, v⟩

/-- background.js validateAndFilterFields: the valid entries in order,
and the excluded diagnostics in order.  As with the transform loop,
the validFields[fieldName] assignments over unique keys make the loop
a filter and a filterMap over the entries. -/
def validateAndFilterFields (fields : List (String × JSVal))
    (schema : Option (List (String × String))) :
    List (String × JSVal) × List ExcludedField :=
  (fields.filter (fun p => classifyField schema p.1 p.2 = FieldOutcome.valid),
   fields.filterMap (fun p =>
     match classifyField schema p.1 p.2 with
     | .excluded e => some e
     | _ => none))

/-! ### content.js text cleanup and validators (content.js 600-882)

Each JS regex test is rendered as an executable matcher faithful to
that concrete pattern (anchoring, greediness and the case-insensitive
flag included).  Greedy quantifier choices are deterministic in every
pattern below because the token after each quantifier cannot overlap
the quantified class. -/

/-- content.js cleanText: collapse whitespace runs, replace newlines
(already removed by the collapse) with spaces, trim, and cap at 1000
characters.  Falsy input gives the empty string. -/
def cleanText (s : String) : String :=
  if s = "" then ""
  else
    String.mk
      ((trimChars ((collapseWSChars s.data).map
        (fun c => if c = Char.ofNat 10 then ' ' else c))).take 1000)

/-- Count and drop a leading run of decimal digits. -/
def dropDigitsCount : List Char → Nat × List Char
  | [] => (0, [])
  | c :: rest =>
    if c.isDigit then
      let (k, r) := dropDigitsCount rest
      (k + 1, r)
    else (0, c :: rest)

/-- Match exactly four leading digits, returning the remainder. -/
def take4Digits (l : List Char) : Option (List Char) :=
  match l with
  | a :: b :: c :: d :: rest =>
    if a.isDigit ∧ b.isDigit ∧ c.isDigit ∧ d.isDigit then some rest else none
  | _ => none

/-- Does any position of the text start a match of the given prefix
matcher (an unanchored regex search)? -/
def scanSuffixes (p : List Char → Bool) : List Char → Bool
  | [] => p []
  | c :: rest => p (c :: rest) || scanSuffixes p rest

/-- The dash class [-–]: a hyphen or an en dash. -/
def isDashChar (c : Char) : Bool := c = '-' || c = Char.ofNat 8211

/-- The middle dot of the employment-type pattern. -/
def midDot : Char := Char.ofNat 183

/-- The year-range pattern of both validators, anchored at both ends:
four digits, optional whitespace, a dash, optional whitespace, then
four digits or Present or Current. -/
def matchYearRangeOnly (l : List Char) : Bool :=
  match take4Digits l with
  | some rest =>
    match rest.dropWhile (fun c => jsIsWS c) with
    | c :: r2 =>
      if isDashChar c then
        let r3 := r2.dropWhile (fun d => jsIsWS d)
        (match take4Digits r3 with | some [] => true | _ => false) ||
          eqCI r3 "Present".data || eqCI r3 "Current".data
      else false
    | [] => false
  | none => false

/-- The month abbreviations of the month-year patterns. -/
def monthAbbrevs : List String :=
  ["Jan", "Feb", "Mar", "Apr", "May", "Jun", "Jul", "Aug", "Sep", "Oct", "Nov", "Dec"]

/-- The month-year start pattern of isValidCompanyName, anchored only
at the start: a month abbreviation, whitespace, four digits. -/
def matchMonthYearStart (l : List Char) : Bool :=
  monthAbbrevs.any (fun m =>
    startsWithCI m.data l &&
    (let rest := l.drop 3
     (match rest with
      | c :: _ => jsIsWS c
      | [] => false) &&
     (take4Digits (rest.dropWhile (fun c => jsIsWS c))).isSome))

/-- The month-year date-range pattern of isValidJobTitle: a month
abbreviation, whitespace, four digits, optional whitespace, a dash,
then anything. -/
def matchMonthYearDash (l : List Char) : Bool :=
  monthAbbrevs.any (fun m =>
    startsWithCI m.data l &&
    (let rest := l.drop 3
     (match rest with
      | c :: _ => jsIsWS c
      | [] => false) &&
     (match take4Digits (rest.dropWhile (fun c => jsIsWS c)) with
      | some r3 =>
        match r3.dropWhile (fun c => jsIsWS c) with
        | d :: _ => isDashChar d
        | [] => false
      | none => false)))

/-- Optionally consume a leading letter s or S (the (s)? group). -/
def dropOptS (l : List Char) : List Char :=
  match l with
  | c :: rest => if c = 's' ∨ c = 'S' then rest else c :: rest
  | [] => []

/-- The duration pattern, anchored at both ends: digits, yr,
optional s, optional digits, mo, optional s. -/
def matchDuration (l : List Char) : Bool :=
  let (k, r1) := dropDigitsCount l
  if k = 0 then false
  else
    let r2 := r1.dropWhile (fun c => jsIsWS c)
    if startsWithCI "yr".data r2 then
      let r5 := (dropOptS (r2.drop 2)).dropWhile (fun c => jsIsWS c)
      let (_, r6) := dropDigitsCount r5
      let r7 := r6.dropWhile (fun c => jsIsWS c)
      if startsWithCI "mo".data r7 then dropOptS (r7.drop 2) = []
      else false
    else false

/-- The years-only pattern of isValidCompanyName, anchored at both
ends: digits, optional whitespace, yr, optional s. -/
def matchYearsOnly (l : List Char) : Bool :=
  let (k, r1) := dropDigitsCount l
  if k = 0 then false
  else
    let r2 := r1.dropWhile (fun c => jsIsWS c)
    if startsWithCI "yr".data r2 then dropOptS (r2.drop 2) = []
    else false

/-- One position of the Nth-degree connection pattern: digits, an
ordinal suffix, optional whitespace, then the word degree. -/
def connDegreeAt (l : List Char) : Bool :=
  let (k, r1) := dropDigitsCount l
  k ≥ 1 ∧
  ["st", "nd", "rd", "th"].any (fun suf =>
    startsWithCI suf.data r1 ∧
    startsWithCI "degree".data ((r1.drop 2).dropWhile (fun c => jsIsWS c)))

/-- One position of the connection-count pattern: digits, optional
whitespace, then the word connection. -/
def connCountAt (l : List Char) : Bool :=
  let (k, r1) := dropDigitsCount l
  k ≥ 1 ∧ startsWithCI "connection".data (r1.dropWhile (fun c => jsIsWS c))

/-- content.js isConnectionDegreeText: any of the six connection and
social-proof patterns matches somewhere in the text. -/
def isConnectionDegreeText (text : String) : Bool :=
  scanSuffixes connDegreeAt text.data ||
  scanSuffixes connCountAt text.data ||
  containsSubCI "mutual connection".data text.data ||
  containsSubCI "follow".data text.data ||
  containsSubCI "message".data text.data ||
  containsSubCI "connect".data text.data

/-- Case-insensitive whole-string equality against one of a list of
words, the shape of the anchored alternation patterns. -/
def eqCIAny (words : List String) (text : String) : Bool :=
  words.any (fun w => eqCI w.data text.data)

/-- The UI-chrome words rejected by both validators. -/
def uiWordRows : List String :=
  ["Message", "Connect", "Follow", "More", "Experience", "Show all", "See less"]

/-- The edit-action words rejected by both validators. -/
def uiEditRows : List String := ["Edit", "Delete", "Add", "Remove"]

/-- The employment-type words of the company validator. -/
def employmentWords : List String :=
  ["Full-time", "Part-time", "Contract", "Freelance", "Internship", "Self-employed"]

/-- The second employment pattern of the company validator: a middle
dot, optional whitespace, then one of five employment words (this
variant omits Self-employed). -/
def matchDotEmployment (l : List Char) : Bool :=
  match l with
  | c :: rest =>
    c = midDot &&
      (["Full-time", "Part-time", "Contract", "Freelance", "Internship"].any
        (fun w => eqCI w.data (rest.dropWhile (fun d => jsIsWS d))))
  | [] => false

/-- The seniority prefixes of the job-title-likeness score. -/
def seniorityStarts : List String :=
  ["Senior", "Junior", "Lead", "Principal", "Chief", "Head of", "Director of",
   "Manager of", "Associate"]

/-- The role-word suffixes of the job-title-likeness score. -/
def jobSuffixWords : List String :=
  ["Engineer", "Developer", "Designer", "Analyst", "Consultant", "Specialist"]

/-- content.js jobTitlePatterns score inside isValidCompanyName: one
point when a seniority prefix matches, one point per matching role
suffix. -/
def jobTitleScore (text : String) : Nat :=
  (if seniorityStarts.any (fun m => startsWithCI m.data text.data) then 1 else 0) +
    (jobSuffixWords.filter (fun m => endsWithCI m.data text.data)).length

/-- content.js isValidCompanyName, the strict organization-name
validator: the rejection rules in source order, score-based job-title
rejection only at score two or more. -/
def isValidCompanyName (text : String) : Bool :=
  if text.length < 2 then false
  else if text.length > 150 then false
  else if eqCIAny employmentWords text ∨ matchDotEmployment text.data then false
  else if matchYearRangeOnly text.data ∨ matchMonthYearStart text.data ∨
      matchDuration text.data ∨ matchYearsOnly text.data then false
  else if jobTitleScore text ≥ 2 then false
  else if eqCIAny uiWordRows text ∨ eqCIAny uiEditRows text ∨
      eqCI "Company name".data text.data then false
  else if isConnectionDegreeText text then false
  else true

/-- The ordinal-only UI pattern of isValidJobTitle: digits, an ordinal
suffix, optional trailing whitespace, end. -/
def matchOrdinalOnly (l : List Char) : Bool :=
  let (k, r1) := dropDigitsCount l
  k ≥ 1 ∧
  ["st", "nd", "rd", "th"].any (fun suf =>
    startsWithCI suf.data r1 ∧ (r1.drop 2).dropWhile (fun c => jsIsWS c) = [])

/-- The character class of the company-name pattern of
isValidJobTitle: letters (the case-insensitive flag widens A-Z),
whitespace, ampersand, comma, dot. -/
def companyClassChar (c : Char) : Bool :=
  c.isAlpha || jsIsWS c || c = '&' || c = ',' || c = '.'

/-- The corporate suffixes of the company-name pattern of
isValidJobTitle. -/
def corpSuffixWords : List String :=
  ["Inc.", "LLC", "Ltd.", "Corp.", "Corporation", "Company"]

/-- The company-name pattern of isValidJobTitle, anchored at both
ends: one or more class characters, whitespace, then a corporate
suffix.  A match exists exactly when some suffix ends the text, the
part before it is at least two characters, ends in whitespace, and
lies in the class. -/
def matchCompanyShape (l : List Char) : Bool :=
  corpSuffixWords.any (fun t =>
    decide (l.length > t.length) &&
    (let p := l.take (l.length - t.length)
     endsWithCI t.data l && decide (p.length ≥ 2) &&
     (match p.reverse with
      | c :: _ => jsIsWS c
      | [] => false) &&
     p.all (fun c => companyClassChar c)))

/-- content.js isValidJobTitle: the rejection rules in source order. -/
def isValidJobTitle (text : String) : Bool :=
  if text.length < 2 then false
  else if text.length > 200 then false
  else if matchYearRangeOnly text.data ∨ matchMonthYearDash text.data ∨
      matchDuration text.data then false
  else if isConnectionDegreeText text then false
  else if eqCIAny uiWordRows text ∨ matchOrdinalOnly text.data ∨
      eqCIAny uiEditRows text then false
  else if matchCompanyShape text.data then false
  else true

/-! ### The locator cascades of extractJobTitle and extractCompany
(content.js 284-299 and 450-470)

The document is abstracted as a query function from a CSS selector to
the text content of the first matching element, or none when no
element matches. -/

/-- The selection loop shared by extractJobTitle and extractCompany:
walk the selector list in order; when a selector matches, clean the
text and stop on the first cleaned text the validator accepts; a
match the validator rejects does not stop the walk.  The empty string
is the no-result value of the source. -/
def firstValidText (dom : String → Option String) (valid : String → Bool) :
    List String → String
  | [] => ""
  | sel :: rest =>
    match dom sel with
    | some raw =>
      let text := cleanText raw
      if valid text then text else firstValidText dom valid rest
    | none => firstValidText dom valid rest

/-- Modelled from the spec wording of the cascade contract: the
selected result is the cleaned text of the first locator that both
matches a node and passes the validator, and the empty string when no
locator does.  Stated for comparison with firstValidText. -/
def specSelectedText (dom : String → Option String) (valid : String → Bool)
    (selectors : List String) : String :=
  match selectors.find? (fun sel =>
    match dom sel with
    | some raw => valid (cleanText raw)
    | none => false) with
  | some sel => cleanText ((dom sel).getD "")
  | none => ""

/-- The ordered selector list of extractJobTitle. -/
def jobTitleSelectors : List String :=
  ["[data-field=\"experience\"] .pvs-list__paged-list-item:first-child .mr1.t-bold span[aria-hidden=\"true\"]",
   "[data-field=\"experience\"] .pvs-list__paged-list-item:first-child .t-bold span[aria-hidden=\"true\"]",
   "[data-field=\"experience\"] .pvs-list__paged-list-item:first-child .t-bold",
   "section[data-section=\"experience\"] .pvs-list__paged-list-item:first-child .mr1.t-bold span[aria-hidden=\"true\"]",
   "section[data-section=\"experience\"] .pvs-list__paged-list-item:first-child .t-bold span[aria-hidden=\"true\"]",
   "section[data-section=\"experience\"] .pvs-list__paged-list-item:first-child .t-bold",
   "section[data-section=\"experience\"] li:first-child .t-bold span[aria-hidden=\"true\"]",
   "section[data-section=\"experience\"] li:first-child .t-bold",
   "#experience ~ div li:first-child .t-bold span[aria-hidden=\"true\"]",
   "#experience ~ div li:first-child .t-bold",
   "#experience + div li:first-child .t-bold span[aria-hidden=\"true\"]",
   "#experience + div li:first-child .t-bold",
   ".experience-section .pvs-list__paged-list-item:first-child .mr1.t-bold span[aria-hidden=\"true\"]",
   ".experience-section .pvs-list__paged-list-item:first-child .t-bold span[aria-hidden=\"true\"]",
   ".experience-section .pvs-list__paged-list-item:first-child .t-bold",
   "section .pvs-list li:first-child .t-bold span[aria-hidden=\"true\"]",
   "section .pvs-list li:first-child .t-bold",
   ".experience-section .pv-entity__summary-info:first-child h3 span[aria-hidden=\"true\"]",
   ".experience-section .pv-entity__summary-info:first-child h3",
   ".pv-profile-section.experience .pv-profile-section__list-item:first-child h3",
   ".experience-section ul li:first-child h3",
   "[id*=\"experience\"] li:first-child .t-bold span[aria-hidden=\"true\"]",
   "[id*=\"experience\"] li:first-child .t-bold"]

/-- The selection loop of extractJobTitle over its selector list (the
subsequent cleanJobTitle pass of the source is outside the claimed
loop). -/
def extractJobTitleLoop (dom : String → Option String) : String :=
  firstValidText dom isValidJobTitle jobTitleSelectors

/-- The selection loop of extractCompany over a selector cascade (the
source picks the grouped or single-role list first; the loop itself is
identical for both). -/
def extractCompanyLoop (dom : String → Option String) (selectors : List String) : String :=
  firstValidText dom isValidCompanyName selectors

/-! ### The single-flight extraction guard (content.js 103-155)

extractProfileData returns immediately when this.isExtracting is
already set, sets the flag before any suspension point, and clears it
in the finally block.  The model replays an arbitrary sequence of
trigger and finish events against a state that counts the extractions
currently in progress (the boolean flag of the source is exactly
whether that count is nonzero), the extractions started, and the
triggers dropped by the guard. -/

/-- Orchestrator state: extractions in progress, triggers dropped by
the guard, extractions started. -/
structure OrchState where
  inProgress : Nat
  dropped : Nat
  started : Nat
deriving Repr, DecidableEq

/-- The this.isExtracting flag. -/
def isExtracting (s : OrchState) : Bool := s.inProgress ≠ 0

/-- A trigger (initial load, navigation, explicit request) or the
finally block of a running extraction. -/
inductive OrchEvent where
  | trigger
  | finish
deriving Repr, DecidableEq

/-- One event against the guard: a trigger while extracting is dropped
(counted, nothing else changes, nothing is queued); a trigger while
idle starts an extraction; a finish ends the running one. -/
def orchStep (s : OrchState) : OrchEvent → OrchState
  | .trigger =>
    if isExtracting s then { s with dropped := s.dropped + 1 }
    else { s with inProgress := s.inProgress + 1, started := s.started + 1 }
  | .finish => { s with inProgress := s.inProgress - 1 }

/-- Replay an event sequence from the idle initial state. -/
def orchRun (evs : List OrchEvent) : OrchState :=
  evs.foldl orchStep ⟨0, 0, 0⟩

/-! ### fetchTableSchema, the remote schema cache (background.js 766-878)

The stateful method is embedded as a function over an explicit state
(the in-memory cachedSchema instance field and the durable
chrome.storage.local map) with the network interaction supplied as an
outcome parameter: a successful response body, an HTTP-level failure
(response.ok false), or a thrown failure (network error or a later
throw inside the try block).  The third component of the result
records whether a network fetch was issued. -/

/-- The Airtable connection configuration. -/
structure AirtableConfig where
  apiToken : String
  baseId : String
  tableId : String
deriving Repr, DecidableEq

/-- The cache key: baseId colon tableId. -/
def configKeyOf (c : AirtableConfig) : String := c.baseId ++ ":" ++ c.tableId

/-- The in-memory cache entry (the fieldDetails the source stores
alongside are never read back by any code under verification and are
omitted). -/
structure CachedSchema where
  configKey : String
  fieldTypes : List (String × String)
  timestamp : Nat
deriving Repr, DecidableEq

/-- A durable stored entry under the airtableSchema_ key. -/
structure StoredSchema where
  fieldTypes : List (String × String)
  timestamp : Nat
deriving Repr, DecidableEq

/-- The background-service state touched by fetchTableSchema. -/
structure CacheState where
  cachedSchema : Option CachedSchema
  storage : List (String × StoredSchema)
deriving Repr, DecidableEq

/-- One field of a table in the metadata response. -/
structure FieldMeta where
  name : String
  fieldType : String
deriving Repr, DecidableEq

/-- One table of the metadata response; a missing fields property is
none. -/
structure TableMeta where
  id : String
  name : String
  fields : Option (List FieldMeta)
deriving Repr, DecidableEq

/-- The outcome of the one network fetch the method can issue. -/
inductive FetchOutcome where
  | ok (tables : List TableMeta)
  | httpFail
  | throwFail
deriving Repr, DecidableEq

/-- The five-minute cache TTL in milliseconds. -/
def cacheTimeoutMs : Nat := 5 * 60 * 1000

/-- The fieldTypes map built from a metadata table by successive
assignment. -/
def buildFieldTypes (fields : List FieldMeta) : List (String × String) :=
  fields.foldl (fun m f => assocSet m f.name f.fieldType) []

/-- The chrome.storage key for a schema copy. -/
def schemaStorageKey (key : String) : String := "airtableSchema_" ++ key

/-- The body of fetchTableSchema after the cache check missed: fetch,
and on success cache in memory and storage; on an HTTP failure fall
back to a matching in-memory entry even if expired, else null; on a
thrown failure fall back to the stored copy (also restoring it into
memory), else null.  The fetch flag is true on every path here. -/
def fetchTableSchemaMiss (config : AirtableConfig) (now : Nat) (outcome : FetchOutcome)
    (st : CacheState) : Option (List (String × String)) × CacheState × Bool :=
  let key := configKeyOf config
  match outcome with
  | .ok tables =>
    match tables.find? (fun t => t.id = config.tableId || t.name = config.tableId) with
    | some table =>
      match table.fields with
      | some fl =>
        let ft := buildFieldTypes fl
        (some ft,
         { cachedSchema := some ⟨key, ft, now⟩,
           storage := assocSet st.storage (schemaStorageKey key) ⟨ft, now⟩ },
         true)
      | none => (none, st, true)
    | none => (none, st, true)
  | .httpFail =>
    match st.cachedSchema with
    | some cs =>
      if cs.configKey = key then (some cs.fieldTypes, st, true) else (none, st, true)
    | none => (none, st, true)
  | .throwFail =>
    match st.storage.lookup (schemaStorageKey key) with
    | some ss =>
      (some ss.fieldTypes,
       { st with cachedSchema := some ⟨key, ss.fieldTypes, ss.timestamp⟩ },
       true)
    | none => (none, st, true)

/-- background.js fetchTableSchema: a matching in-memory entry with a
truthy timestamp younger than the TTL is returned with no fetch;
otherwise the miss path runs. -/
def fetchTableSchema (config : AirtableConfig) (now : Nat) (outcome : FetchOutcome)
    (st : CacheState) : Option (List (String × String)) × CacheState × Bool :=
  let key := configKeyOf config
  match st.cachedSchema with
  | some cs =>
    if cs.configKey = key ∧ cs.timestamp ≠ 0 ∧ now - cs.timestamp < cacheTimeoutMs then
      (some cs.fieldTypes, st, false)
    else fetchTableSchemaMiss config now outcome st
  | none => fetchTableSchemaMiss config now outcome st

/-! ### parseAirtableError (background.js 899-1016)

Embedded in the Except monad: the source can throw a TypeError by
calling a string method on a non-string error message taken from the
response body, and the claim under verification is exactly about this
totality, so every such method call goes through a guard that throws
in the monad when the receiver is not a string.  The console logging
of the source is truthiness-guarded or wrapped in try/catch and has
no observable effect, and is omitted. -/

/-- A single-quote string, for message text containing apostrophes. -/
def aposS : String := String.mk [sq]

/-- JS a || b. -/
def jsOr (a b : JSVal) : JSVal := if jsTruthy a then a else b

/-- Scan for the first quoted nonempty run: the /"([^"]+)"/ capture. -/
def quotedCaptureAux : List Char → Option (List Char)
  | [] => none
  | c :: rest =>
    if c = dq then
      let body := rest.takeWhile (fun d => d ≠ dq)
      let after := rest.dropWhile (fun d => d ≠ dq)
      if body ≠ [] ∧ after ≠ [] then some body else quotedCaptureAux rest
    else quotedCaptureAux rest

/-- The /"([^"]+)"/ capture group over a string. -/
def reQuotedCapture (s : String) : Option String := (quotedCaptureAux s.data).map String.mk

/-- The capture class of the field-name pattern: anything but quotes,
whitespace and commas. -/
def fieldCaptureClassChar (c : Char) : Bool :=
  ¬ (c = dq ∨ c = sq ∨ c = ',' ∨ jsIsWS c)

/-- One position of the field-name pattern: the word field, optional
s, whitespace, optional quote, then the captured run.  Greedy choices
are deterministic: the whitespace after the optional s cannot be an s,
a quote is not in the capture class, and the class excludes
whitespace. -/
def fieldCaptureAt (l : List Char) : Option (List Char) :=
  if startsWithCI "field".data l then
    let r2 := dropOptS (l.drop 5)
    match r2 with
    | c :: _ =>
      if jsIsWS c then
        let r3 := r2.dropWhile (fun d => jsIsWS d)
        let r4 : List Char := match r3 with
          | d :: rest => if d = dq ∨ d = sq then rest else d :: rest
          | [] => []
        let cap := r4.takeWhile fieldCaptureClassChar
        if cap ≠ [] then some cap else none
      else none
    | [] => none
  else none

/-- Leftmost match of the field-name pattern. -/
def fieldCaptureScan : List Char → Option (List Char)
  | [] => none
  | c :: rest =>
    match fieldCaptureAt (c :: rest) with
    | some cap => some cap
    | none => fieldCaptureScan rest

/-- The /field[s]?\s+["']?([^"'\s,]+)["']?/i capture group over a
string. -/
def reFieldCapture (s : String) : Option String := (fieldCaptureScan s.data).map String.mk

/-- errorMsg.match with the quoted-name pattern: a TypeError in the
monad when the receiver is not a string. -/
def jsMatchQuoted (v : JSVal) : Except String (Option String) :=
  match v with
  | vStr s => .ok (reQuotedCapture s)
  | _ => .error "TypeError: errorMsg.match is not a function"

/-- errorMsg.match with the field-name pattern: a TypeError in the
monad when the receiver is not a string. -/
def jsMatchField (v : JSVal) : Except String (Option String) :=
  match v with
  | vStr s => .ok (reFieldCapture s)
  | _ => .error "TypeError: errorMsg.match is not a function"

/-- The select-option match whose result the source never reads: only
the TypeError on a non-string receiver is observable. -/
def jsMatchDiscard (v : JSVal) : Except String Unit :=
  match v with
  | vStr _ => .ok ()
  | _ => .error "TypeError: errorMsg.match is not a function"

/-- errorMsg.toLowerCase().includes(needle) for a lower-case needle: a
TypeError in the monad when the receiver is not a string. -/
def jsToLowerIncludes (v : JSVal) (needle : String) : Except String Bool :=
  match v with
  | vStr s => .ok (containsSubChars needle.data (lowerChars s.data))
  | _ => .error "TypeError: errorMsg.toLowerCase is not a function"

/-- One per-field error entry pushed by parseAirtableError; the error
text is a JS value because one branch stores the raw error message
value. -/
structure FieldErrorEntry where
  field : String
  error : JSVal
deriving Repr, DecidableEq

/-- The result shape of parseAirtableError. -/
structure AirtableErrorInfo where
  message : JSVal
  unknownFields : List String
  fieldErrors : List FieldErrorEntry
deriving Repr, DecidableEq

/-- The structured-error-type if chain of parseAirtableError over the
defaulted errorType and errorMsg values: the optional errorMessage
override and the unknownFields and fieldErrors pushes of that chain.
A thrown TypeError from a string-method call on a non-string errorMsg
propagates in the monad. -/
def structuredErrorUpdate (errorType errorMsg : JSVal) :
    Except String (Option JSVal × List String × List FieldErrorEntry) :=
  if errorType = vStr "UNKNOWN_FIELD_NAME" then
    (jsMatchQuoted errorMsg).map (fun fieldName? =>
      match fieldName? with
      | some fn =>
        (some (vStr ("Unknown field: \"" ++ fn ++
          "\". Please check your field mappings in the configuration section.")),
         [fn], [⟨fn, vStr "Field does not exist in Airtable table"⟩])
      | none =>
        (some (vStr ("Unknown field error. " ++ jsToString errorMsg)), [], []))
  else if errorType = vStr "INVALID_VALUE_FOR_COLUMN" then do
    let fieldName? ← jsMatchField errorMsg
    let hasRecordId ← jsToLowerIncludes errorMsg "record id"
    let hasArray ← jsToLowerIncludes errorMsg "array"
    let typeHint : String :=
      if hasRecordId then
        " The field appears to be a Linked Record type, but a URL was provided. Change the field type in Airtable to URL or Attachment."
      else if hasArray then
        " The field expects an array format. Check the field type in Airtable."
      else ""
    match fieldName? with
    | some fn =>
      .ok (some (vStr ("Invalid data type for field \"" ++ fn ++ "\"." ++ typeHint ++
            " Details: " ++ jsToString errorMsg)),
        [], [⟨fn, vStr ("Invalid data type for this field" ++ typeHint)⟩])
    | none =>
      .ok (some (vStr ("Invalid data type error. " ++ jsToString errorMsg)), [], [])
  else if errorType = vStr "INVALID_MULTIPLE_CHOICE_OPTIONS" then
    (jsMatchDiscard errorMsg).map (fun _ =>
      (some (vStr ("Permission Error: Your Airtable API token doesn" ++ aposS ++
        "t have permission to create new select options. To fix this:\n\n1. Go to https://airtable.com/create/tokens\n2. Edit your token to add the \"schema.bases:write\" scope\n3. Or manually add the missing value to your Single Select field in Airtable\n\nDetails: " ++
        jsToString errorMsg)), [], []))
  else if errorType = vStr "INVALID_REQUEST_UNKNOWN" ∨
      errorType = vStr "INVALID_REQUEST_BODY" then
    (jsMatchField errorMsg).map (fun fieldMatch? =>
      (some (vStr ("Invalid data format: " ++
        (if jsTruthy errorMsg then jsToString errorMsg
         else "Please verify your data and field mappings"))),
       [],
       match fieldMatch? with
       | some fn => [⟨fn, errorMsg⟩]
       | none => []))
  else if errorType = vStr "INVALID_PERMISSIONS" then
    .ok (some (vStr ("Permission denied: " ++ jsToString errorMsg ++
      ". Check your API token permissions.")), [], [])
  else if errorType = vStr "NOT_FOUND" then
    .ok (some (vStr ("Resource not found: " ++ jsToString errorMsg ++
      ". Please verify your Base ID and Table ID.")), [], [])
  else if jsTruthy errorMsg then .ok (some errorMsg, [], [])
  else .ok (none, [], [])

/-- The trailing HTTP-status-code overrides of parseAirtableError,
keyed off the message string of the thrown Error. -/
def httpStatusOverride (errorMessage0 : String) (m : JSVal) : JSVal :=
  if jsIncludes errorMessage0 "401" then
    vStr "Invalid API token. Please check your Airtable configuration."
  else if jsIncludes errorMessage0 "403" then
    vStr "Permission denied. Check your API token permissions."
  else if jsIncludes errorMessage0 "404" then
    vStr "Base or table not found. Please verify your Base ID and Table ID."
  else if jsIncludes errorMessage0 "422" then
    vStr "Invalid data format. Check your field mappings and ensure field types match."
  else if jsIncludes errorMessage0 "429" then
    vStr "Rate limit exceeded. Please wait a moment before trying again."
  else if jsIncludes errorMessage0 "network" then
    vStr "Network error. Please check your internet connection."
  else m

/-- The response-body inspection of parseAirtableError: the message
after the structured branch (defaulting to the Error message), and
the collected unknownFields and fieldErrors. -/
def parseErrorStep (errorMessage0 : String) (responseData : JSVal) :
    Except String (JSVal × List String × List FieldErrorEntry) :=
  let base : JSVal := vStr errorMessage0
  if jsTruthy responseData ∧ jsTypeofStr responseData = "object" then
    let airtableError := jsGetProp responseData "error"
    if jsTruthy airtableError ∧ jsTypeofStr airtableError = "object" then
      (structuredErrorUpdate (jsOr (jsGetProp airtableError "type") (vStr ""))
          (jsOr (jsGetProp airtableError "message") (vStr ""))).map
        (fun r => (r.1.getD base, r.2.1, r.2.2))
    else if jsTruthy (jsGetProp responseData "message") then
      .ok (jsGetProp responseData "message", [], [])
    else .ok (base, [], [])
  else .ok (base, [], [])

/-- background.js parseAirtableError over the message string of the
thrown Error, the parsed response body and the sent fields (the last
is only logged by the source).  The errorMessage mutations of the
source are expressed as the structured-branch override followed by the
HTTP-status override. -/
def parseAirtableError (errorMessage0 : String) (responseData : JSVal)
    (sentFields : JSVal) : Except String AirtableErrorInfo :=
  (parseErrorStep errorMessage0 responseData).map
    (fun r => ⟨httpStatusOverride errorMessage0 r.1, r.2.1, r.2.2⟩)

/-- Does the Except computation end without a thrown error? -/
def exceptIsOk (r : Except String AirtableErrorInfo) : Bool :=
  match r with
  | .ok _ => true
  | .error _ => false

/-- Is the value a string or falsy (so that the a || b defaulting of
the source yields a string)? -/
def strOrFalsy (v : JSVal) : Bool := jsTypeofStr v = "string" || ¬ jsTruthy v

/-- The response-body shapes under which parseAirtableError is total:
both message slots the source may call string methods on, or assign
from, hold a string whenever they are truthy. -/
def wellFormedBody (rd : JSVal) : Bool :=
  strOrFalsy (jsGetProp (jsGetProp rd "error") "message") &&
    strOrFalsy (jsGetProp rd "message")

/-! ### The save pipeline and the statements compared against it -/

/-- The transformation-then-validation tail of the saveToAirtable
pipeline, over one fixed schema. -/
def pipelineTV (fields : List (String × JSVal))
    (schema : Option (List (String × String))) :
    List (String × JSVal) × List ExcludedField :=
  validateAndFilterFields (transformFieldsForAirtable fields schema) schema

/-- The full mapping-transformation-validation pipeline of
saveToAirtable, over one fixed schema. -/
def runPipeline (contactData : List (String × JSVal))
    (fieldMappings : List (String × String))
    (schema : Option (List (String × String))) :
    List (String × JSVal) × List ExcludedField :=
  pipelineTV (mapContactDataToAirtable contactData fieldMappings) schema

/-- The field types whose transform is the quote-strip-and-trim of a
string, the one transform in the pipeline that is not idempotent. -/
def textishType (t : String) : Bool :=
  t = "singleSelect" || t = "singleLineText" || t = "multilineText" || t = "richText"

/-- Characterization of a second transformation-validation pass over a
surviving entry: a field typed singleSelect or text-like has its
string value quote-stripped and trimmed again and is dropped when that
empties it; every other entry is unchanged.  Stated for comparison
with the pipeline. -/
def secondPassEntry (schema : Option (List (String × String)))
    (p : String × JSVal) : Option (String × JSVal) :=
  match schema.bind (fun s => truthyLookup s p.1) with
  | some t =>
    if textishType t then
      match p.2 with
      | vStr s =>
        let s2 := stripQuotesTrim s
        if s2 = "" then none else some (p.1, vStr s2)
      | _ => some p
    else some p
  | none => some p

/-- No two adjacent whitespace characters. -/
def noAdjacentWS : List Char → Bool
  | [] => true
  | [_] => true
  | a :: b :: rest => (¬ (jsIsWS a ∧ jsIsWS b)) && noAdjacentWS (b :: rest)

/-- The sanitization invariant of one string: at most 100000
characters, no NUL byte, no run of consecutive whitespace. -/
def sanitizedChars (l : List Char) : Bool :=
  decide (l.length ≤ 100000) && decide (nulChar ∉ l) && noAdjacentWS l

mutual
/-- Every string inside the value, recursively through arrays and
plain objects, satisfies the sanitization invariant. -/
def stringsSanitized : JSVal → Bool
  | vStr s => sanitizedChars s.data
  | vArr l => stringsSanitizedList l
  | vObj props => stringsSanitizedProps props
  | _ => true
/-- stringsSanitized over an array. -/
def stringsSanitizedList : JSList → Bool
  | .nil => true
  | .cons v rest => stringsSanitized v && stringsSanitizedList rest
/-- stringsSanitized over the values of a plain object. -/
def stringsSanitizedProps : JSProps → Bool
  | .nil => true
  | .cons _ v rest => stringsSanitized v && stringsSanitizedProps rest
end

/-- The closed set of field types the validator handles by name; every
other type string falls to its accepting default arm. -/
def knownFieldTypes : List String :=
  ["multipleRecordLinks", "multipleAttachments", "multipleSelects", "singleSelect",
   "number", "currency", "percent", "rating", "checkbox", "singleLineText",
   "multilineText", "richText", "email", "url", "phoneNumber", "date", "dateTime"]

/-- Is the head, if any, a non-whitespace character?  (Support for the
whitespace-collapse invariant.) -/
def headNotWS : List Char → Bool
  | [] => true
  | c :: _ => ¬ jsIsWS c

/-- Does the list end in a non-whitespace character (or is it
empty)?  (Support for the whitespace-collapse invariant.) -/
def lastNotWS (l : List Char) : Bool := headNotWS l.reverse

/-- The survivor property of a first-pass valid entry: with no schema
the heuristic fixes the value; with a known truthy type the value is a
string for the quote-stripping types and a transform fixpoint for
every other type.  (Support for the second-pass characterization.) -/
def ReOK (schema : Option (List (String × String))) (n : String) (w : JSVal) : Prop :=
  match schema with
  | none => transformByHeuristic n w = w
  | some s =>
    match truthyLookup s n with
    | some t =>
      if textishType t = true then (∃ str, w = vStr str)
      else transformByFieldType n w t = w
    | none => False

/-- The structured branch ended without a throw and any message
override it produced is a string.  (Support for the totality
statement.) -/
def okWithStrMsg (e : Except String (Option JSVal × List String × List FieldErrorEntry)) :
    Prop :=
  match e with
  | .ok r => ∀ m, r.1 = some m → jsTypeofStr m = "string"
  | .error _ => False

/-! ## Theorems -/

/-- A URL-scheme prefix forces a nonempty string. -/
lemma ne_empty_of_httpScheme {s : String} (h : startsWithHttpScheme s = true) :
    s ≠ "" := by
  intro he
  subst he
  exact absurd h (by decide)

/-- C1: the linked-record transform excludes every URL-shaped string
(signalling exclusion with the null value, never a sanitized
substitute), excludes every empty value (empty string, null,
undefined, empty array), and splits a nonempty non-URL string bearing
a comma into the trimmed nonempty identifier pieces. -/
theorem c1_linked_record_transform :
    (∀ (name s : String), startsWithHttpScheme s = true →
      transformByFieldType name (vStr s) "multipleRecordLinks" = vNull) ∧
    (∀ name : String,
      transformByFieldType name (vStr "") "multipleRecordLinks" = vNull ∧
      transformByFieldType name vNull "multipleRecordLinks" = vNull ∧
      transformByFieldType name vUndefined "multipleRecordLinks" = vNull ∧
      transformByFieldType name (vArr .nil) "multipleRecordLinks" = vNull) ∧
    (∀ (name s : String), s ≠ "" → startsWithHttpScheme s = false →
      containsSubChars [','] s.data = true →
      transformByFieldType name (vStr s) "multipleRecordLinks"
        = vArr (strListToJS (splitTrimFilterStr s))) := by
  refine ⟨?_, ?_, ?_⟩
  · intro name s h
    have hs : s ≠ "" := ne_empty_of_httpScheme h
    simp only [transformByFieldType, jsTruthy, isEmptyArrJS]
    rw [if_neg (by simp [hs]), if_pos h]
  · intro name
    exact ⟨rfl, rfl, rfl, rfl⟩
  · intro name s hs hurl hcomma
    simp only [transformByFieldType, jsTruthy, isEmptyArrJS]
    rw [if_neg (by simp [hs]), if_neg (by simp [hurl]), if_pos hcomma]

/-- C1 witness: the three parts at concrete inputs. -/
theorem c1_linked_record_transform_witness :
    transformByFieldType "Related" (vStr "https://example.com/x") "multipleRecordLinks"
      = vNull ∧
    transformByFieldType "Related" (vStr "") "multipleRecordLinks" = vNull ∧
    transformByFieldType "Related" (vStr "recA, recB") "multipleRecordLinks"
      = vArr (strListToJS ["recA", "recB"]) :=
  ⟨c1_linked_record_transform.1 "Related" "https://example.com/x" (by decide),
   (c1_linked_record_transform.2.1 "Related").1,
   by
     have h := c1_linked_record_transform.2.2 "Related" "recA, recB" (by decide)
       (by decide) (by decide)
     rw [h]
     decide⟩

/-- C4: the organization-name validator rejects exactly at a
job-title-pattern score of two or more, and a score of exactly one
never rejects: the two witnesses of the spec behave as claimed, and
the validator accepts precisely when both length bounds hold, no
employment, date, chrome or connection rule fires, and the score is
below two. -/
theorem c4_company_score_threshold :
    isValidCompanyName "Senior Software Engineer" = false ∧
    jobTitleScore "Senior Software Engineer" = 2 ∧
    isValidCompanyName "Engineering Corp" = true ∧
    jobTitleScore "Engineering Corp" ≤ 1 ∧
    (∀ text : String,
      isValidCompanyName text = true ↔
        (2 ≤ text.length ∧ text.length ≤ 150 ∧
         eqCIAny employmentWords text = false ∧ matchDotEmployment text.data = false ∧
         matchYearRangeOnly text.data = false ∧ matchMonthYearStart text.data = false ∧
         matchDuration text.data = false ∧ matchYearsOnly text.data = false ∧
         jobTitleScore text < 2 ∧
         eqCIAny uiWordRows text = false ∧ eqCIAny uiEditRows text = false ∧
         eqCI "Company name".data text.data = false ∧
         isConnectionDegreeText text = false)) := by
  refine ⟨by decide, by decide, by decide, by decide, ?_⟩
  intro text
  unfold isValidCompanyName
  split_ifs with h1 h2 h3 h4 h5 h6 h7
  · simp only [false_iff]
    rintro ⟨hl, -⟩
    omega
  · simp only [false_iff]
    rintro ⟨-, hl, -⟩
    omega
  · simp only [false_iff]
    rintro ⟨-, -, he1, he2, -⟩
    rcases h3 with h | h
    · rw [he1] at h; exact Bool.false_ne_true h
    · rw [he2] at h; exact Bool.false_ne_true h
  · simp only [false_iff]
    rintro ⟨-, -, -, -, hd1, hd2, hd3, hd4, -⟩
    rcases h4 with h | h | h | h
    · rw [hd1] at h; exact Bool.false_ne_true h
    · rw [hd2] at h; exact Bool.false_ne_true h
    · rw [hd3] at h; exact Bool.false_ne_true h
    · rw [hd4] at h; exact Bool.false_ne_true h
  · simp only [false_iff]
    rintro ⟨-, -, -, -, -, -, -, -, hsc, -⟩
    omega
  · simp only [false_iff]
    rintro ⟨-, -, -, -, -, -, -, -, -, hu1, hu2, hu3, -⟩
    rcases h6 with h | h | h
    · rw [hu1] at h; exact Bool.false_ne_true h
    · rw [hu2] at h; exact Bool.false_ne_true h
    · rw [hu3] at h; exact Bool.false_ne_true h
  · simp only [false_iff]
    rintro ⟨-, -, -, -, -, -, -, -, -, -, -, -, hc⟩
    rw [hc] at h7
    exact Bool.false_ne_true h7
  · simp only [true_iff]
    push_neg at h3 h4 h6
    refine ⟨by omega, by omega, ?_, ?_, ?_, ?_, ?_, ?_, by omega, ?_, ?_, ?_, ?_⟩ <;>
      simp_all [Bool.not_eq_true]

/-- Invariant step for the single-flight guard: one event keeps the
in-progress count at most one. -/
lemma orchStep_preserves_bound (s : OrchState) (e : OrchEvent)
    (h : s.inProgress ≤ 1) : (orchStep s e).inProgress ≤ 1 := by
  cases e with
  | trigger =>
    by_cases hx : isExtracting s = true
    · simp [orchStep, hx, h]
    · have h0 : s.inProgress = 0 := by
        simp [isExtracting] at hx
        exact hx
      simp [orchStep, hx, h0]
  | finish =>
    simp only [orchStep]
    omega

/-- The in-progress bound holds along every replay. -/
lemma orchRun_bound_aux :
    ∀ (evs : List OrchEvent) (s : OrchState), s.inProgress ≤ 1 →
      (evs.foldl orchStep s).inProgress ≤ 1 := by
  intro evs
  induction evs with
  | nil => intro s h; simpa using h
  | cons e rest ih =>
    intro s h
    exact ih _ (orchStep_preserves_bound s e h)

/-- C6: along every sequence of triggers and completions at most one
extraction is ever in progress, and a trigger arriving while one is in
progress only increments the dropped counter — nothing is started and
nothing is queued. -/
theorem c6_single_flight :
    (∀ evs : List OrchEvent, (orchRun evs).inProgress ≤ 1) ∧
    (∀ s : OrchState, isExtracting s = true →
      orchStep s .trigger = { s with dropped := s.dropped + 1 }) :=
  ⟨fun evs => orchRun_bound_aux evs ⟨0, 0, 0⟩ (by simp),
   fun s h => by simp [orchStep, h]⟩

/-- C6 witness: a trigger during an extraction is dropped, and a
double-trigger replay stays within the bound. -/
theorem c6_single_flight_witness :
    (orchRun [.trigger, .trigger, .finish, .trigger]).inProgress ≤ 1 ∧
    orchStep ⟨1, 0, 1⟩ .trigger = ⟨1, 1, 1⟩ :=
  ⟨c6_single_flight.1 [.trigger, .trigger, .finish, .trigger],
   c6_single_flight.2 ⟨1, 0, 1⟩ (by decide)⟩

/-- The cascade loop agrees with the first-match-and-validate
selection rule, for every document and selector order. -/
lemma firstValidText_eq_spec (dom : String → Option String) (valid : String → Bool) :
    ∀ selectors : List String,
      firstValidText dom valid selectors = specSelectedText dom valid selectors := by
  intro selectors
  induction selectors with
  | nil => rfl
  | cons sel rest ih =>
    by_cases hd : ∃ raw, dom sel = some raw
    · obtain ⟨raw, hraw⟩ := hd
      by_cases hv : valid (cleanText raw) = true
      · simp [firstValidText, specSelectedText, hraw, hv, List.find?]
      · simp only [firstValidText, specSelectedText, hraw, hv, List.find?] at *
        simpa [specSelectedText, Bool.false_eq_true, if_neg] using ih
    · have hnone : dom sel = none := by
        cases h : dom sel with
        | none => rfl
        | some raw => exact absurd ⟨raw, h⟩ hd
      simp only [firstValidText, specSelectedText, hnone, List.find?] at *
      simpa [specSelectedText] using ih

/-- C3: for every document and for every selector ordering, the
job-title and organization cascades select the cleaned text of the
first locator that both matches a node and passes the field validator;
a locator that matches but fails validation does not stop the walk,
which continues with the next locator. -/
theorem c3_cascade_first_valid :
    ∀ (dom : String → Option String) (selectors : List String),
      extractJobTitleLoop dom = specSelectedText dom isValidJobTitle jobTitleSelectors ∧
      firstValidText dom isValidJobTitle selectors
        = specSelectedText dom isValidJobTitle selectors ∧
      extractCompanyLoop dom selectors
        = specSelectedText dom isValidCompanyName selectors :=
  fun dom selectors =>
    ⟨firstValidText_eq_spec dom isValidJobTitle jobTitleSelectors,
     firstValidText_eq_spec dom isValidJobTitle selectors,
     firstValidText_eq_spec dom isValidCompanyName selectors⟩

/-- The validator accepts every type outside its known closed set. -/
lemma validateFieldValue_default (n : String) (v : JSVal) (t : String)
    (ht : t ∉ knownFieldTypes) : validateFieldValue n v t = none := by
  unfold validateFieldValue
  split <;> first
    | rfl
    | exact absurd (by decide) ht

/-- C9: a field whose declared (truthy) schema type lies outside the
known closed set is judged valid by validateFieldValue for every
value, and validateAndFilterFields transmits such a field rather than
excluding it. -/
theorem c9_unknown_types_accepted :
    (∀ (n : String) (v : JSVal) (t : String), t ∉ knownFieldTypes →
      validateFieldValue n v t = none) ∧
    (∀ (fields : List (String × JSVal)) (schema : List (String × String))
      (n : String) (v : JSVal) (t : String),
      truthyLookup schema n = some t → t ∉ knownFieldTypes →
      isSkipEmpty v = false → (n, v) ∈ fields →
      (n, v) ∈ (validateAndFilterFields fields (some schema)).1) := by
  refine ⟨validateFieldValue_default, ?_⟩
  intro fields schema n v t hlk ht hskip hmem
  have hne : ¬ (t = "multipleRecordLinks" ∧ ¬ isValidLinkedRecordShape v = true) := by
    rintro ⟨he, -⟩
    exact ht (he ▸ (by decide))
  have hcls : classifyField (some schema) n v = FieldOutcome.valid := by
    unfold classifyField
    rw [if_neg (by simp [hskip])]
    simp only [hlk, if_neg hne, validateFieldValue_default n v t ht]
  exact List.mem_filter.mpr ⟨hmem, by simp [hcls]⟩

/-- C9 witness: a formula-typed field with a string value is
transmitted. -/
theorem c9_unknown_types_accepted_witness :
    validateFieldValue "Total" (vStr "x") "formula" = none ∧
    ("Total", vStr "x")
      ∈ (validateAndFilterFields [("Total", vStr "x")] (some [("Total", "formula")])).1 :=
  ⟨c9_unknown_types_accepted.1 "Total" (vStr "x") "formula" (by decide),
   c9_unknown_types_accepted.2 [("Total", vStr "x")] [("Total", "formula")] "Total"
     (vStr "x") "formula" (by decide) (by decide) (by decide) (by simp)⟩

/-- C2 counterexample: the claimed fallback order (in-memory entry
first, then durable copy, then null) fails on the code.  With a stale
in-memory entry for the same identity and an empty durable store, a
thrown fetch failure returns null instead of the in-memory entry: the
thrown-failure path consults only the durable store. -/
theorem c2_schema_cache_counterexample :
    configKeyOf ⟨"tok", "b", "t"⟩ = "b:t" ∧
    (fetchTableSchema ⟨"tok", "b", "t"⟩ 400000 .throwFail
        ⟨some ⟨"b:t", [("F", "singleLineText")], 1⟩, []⟩).1 = none := by
  exact ⟨rfl, rfl⟩

/-- C5 counterexample: the pipeline is not idempotent.  For the
record mapping Name to the five characters quote b quote-mark space
quote under a singleSelect schema, the first run keeps the value b
followed by a quote mark, and feeding the valid set back through
transformation and validation strips that quote mark, so the second
valid set differs from the first. -/
theorem c5_idempotence_counterexample :
    (runPipeline [("fullName", vStr (String.mk [dq, 'b', sq, ' ', dq]))] []
        (some [("Name", "singleSelect")])).1
      = [("Name", vStr (String.mk ['b', sq]))] ∧
    (pipelineTV (runPipeline [("fullName", vStr (String.mk [dq, 'b', sq, ' ', dq]))] []
        (some [("Name", "singleSelect")])).1 (some [("Name", "singleSelect")])).1
      = [("Name", vStr "b")] ∧
    (pipelineTV (runPipeline [("fullName", vStr (String.mk [dq, 'b', sq, ' ', dq]))] []
        (some [("Name", "singleSelect")])).1 (some [("Name", "singleSelect")])).1
      ≠ (runPipeline [("fullName", vStr (String.mk [dq, 'b', sq, ' ', dq]))] []
        (some [("Name", "singleSelect")])).1 := by
  refine ⟨by decide, by decide, by decide⟩

/-- C8 counterexample: sanitized output can carry trailing whitespace.
The raw value quote a space quote is trimmed before its surrounding
quotes are stripped, so the mapped output value is the two characters
a space — the no-leading-or-trailing-whitespace part of the claim
fails. -/
theorem c8_sanitize_counterexample :
    mapContactDataToAirtable [("fullName", vStr (String.mk [dq, 'a', ' ', dq]))] []
      = [("Name", vStr "a ")] ∧
    "a ".data.getLast? = some ' ' ∧ jsIsWS ' ' = true := by
  refine ⟨by decide, by decide, by decide⟩

/-- C10 counterexample: parseAirtableError is not total.  A response
body whose error object carries the UNKNOWN_FIELD_NAME type and a
numeric message routes into errorMsg.match on a non-string, which
throws a TypeError. -/
theorem c10_parse_error_counterexample :
    exceptIsOk (parseAirtableError "boom"
      (vObj (.cons "error" (vObj (.cons "type" (vStr "UNKNOWN_FIELD_NAME")
        (.cons "message" (vNum 5) .nil))) .nil)) vNull) = false := by
  decide

/-- Keys of an assocSet update come from the list or are the written
key. -/
lemma assocSet_key_mem {α : Type} (l : List (String × α)) (k : String) (v : α)
    (an : String) (h : an ∈ (assocSet l k v).map Prod.fst) :
    an ∈ l.map Prod.fst ∨ an = k := by
  unfold assocSet at h
  by_cases hc : l.any (fun p => p.1 = k) = true
  · rw [if_pos hc, List.map_map] at h
    rcases List.mem_map.mp h with ⟨p, hp, hval⟩
    by_cases hpk : p.1 = k
    · right
      simp only [Function.comp, hpk, if_pos] at hval
      exact hval.symm
    · left
      simp only [Function.comp, hpk, if_neg, ite_false] at hval
      exact hval ▸ List.mem_map_of_mem Prod.fst hp
  · rw [if_neg hc, List.map_append] at h
    rcases List.mem_append.mp h with h | h
    · exact Or.inl h
    · right
      simpa using h

/-- Every key of the mapper fold output either was already present or
was written from a canonical key whose contact value is truthy. -/
lemma mapFold_key_source (cd : List (String × JSVal)) :
    ∀ (l : List (String × String)) (acc : List (String × JSVal)) (an : String),
      an ∈ (l.foldl
        (fun fields p =>
          let v := contactVal cd p.1
          if p.2 ≠ "" ∧ jsTruthy v ∧ v ≠ vStr "" then
            assocSet fields p.2 (sanitizeValue v)
          else fields)
        acc).map Prod.fst →
      an ∈ acc.map Prod.fst ∨
        ∃ dk, (dk, an) ∈ l ∧ jsTruthy (contactVal cd dk) = true := by
  intro l
  induction l with
  | nil =>
    intro acc an h
    exact Or.inl h
  | cons p rest ih =>
    intro acc an h
    rw [List.foldl_cons] at h
    rcases ih _ an h with hacc | ⟨dk, hdk, htr⟩
    · by_cases hc : p.2 ≠ "" ∧ jsTruthy (contactVal cd p.1) = true ∧
          contactVal cd p.1 ≠ vStr ""
      · simp only [if_pos hc] at hacc
        rcases assocSet_key_mem acc p.2 (sanitizeValue (contactVal cd p.1)) an hacc with
          h2 | h2
        · exact Or.inl h2
        · exact Or.inr ⟨p.1, h2 ▸ List.mem_cons_self p rest, hc.2.1⟩
      · simp only [if_neg hc] at hacc
        exact Or.inl hacc
    · exact Or.inr ⟨dk, List.mem_cons_of_mem p hdk, htr⟩

/-- C7: the mapper omits a canonical key entirely when its value is
empty (null, undefined or the empty string): provided no other
canonical key is mapped to the same external name, that external name
is absent from the mapped object rather than present with an empty
value. -/
theorem c7_empty_values_omitted :
    ∀ (contactData : List (String × JSVal)) (fieldMappings : List (String × String))
      (dataKey airtableName : String),
      (mergeMappings fieldMappings).lookup dataKey = some airtableName →
      (contactVal contactData dataKey = vNull ∨
       contactVal contactData dataKey = vUndefined ∨
       contactVal contactData dataKey = vStr "") →
      (∀ p ∈ mergeMappings fieldMappings, p.2 = airtableName → p.1 = dataKey) →
      airtableName ∉ (mapContactDataToAirtable contactData fieldMappings).map Prod.fst := by
  intro cd fm dk an _ hempty huniq hmem
  unfold mapContactDataToAirtable at hmem
  rcases mapFold_key_source cd (mergeMappings fm) [] an hmem with h | ⟨dk2, hdk2, htr⟩
  · simp at h
  · have hd : dk2 = dk := huniq (dk2, an) hdk2 rfl
    subst hd
    rcases hempty with h | h | h <;> rw [h] at htr <;> exact Bool.false_ne_true htr

/-- C7 witness: the empty fullName of a record leaves the Name field
absent from the mapped object. -/
theorem c7_empty_values_omitted_witness :
    "Name" ∉ (mapContactDataToAirtable [("fullName", vStr "")] []).map Prod.fst :=
  c7_empty_values_omitted [("fullName", vStr "")] [] "fullName" "Name"
    (by decide) (Or.inr (Or.inr (by decide))) (by decide)

/-- C2 amended: the TTL-hit and single-fetch halves of the claim hold;
the failure fallback depends on the failure kind.  An HTTP-level
failure falls back to the matching in-memory entry even if stale and
otherwise to null — the durable copy is not consulted.  A thrown
(network-level) failure falls back to the durable copy keyed by the
identity, restoring it into memory, and otherwise to null — the
in-memory entry is not consulted. -/
theorem c2_schema_cache_amended :
    (∀ (cfg : AirtableConfig) (now : Nat) (out : FetchOutcome) (st : CacheState)
        (cs : CachedSchema),
      st.cachedSchema = some cs → cs.configKey = configKeyOf cfg → cs.timestamp ≠ 0 →
      now - cs.timestamp < cacheTimeoutMs →
      fetchTableSchema cfg now out st = (some cs.fieldTypes, st, false)) ∧
    (∀ (cfg : AirtableConfig) (t1 t2 : Nat) (out2 : FetchOutcome)
        (tables : List TableMeta) (tb : TableMeta) (fl : List FieldMeta)
        (st0 : CacheState),
      tables.find? (fun t => t.id = cfg.tableId || t.name = cfg.tableId) = some tb →
      tb.fields = some fl → t1 ≠ 0 → t2 - t1 < cacheTimeoutMs →
      st0.cachedSchema = none →
      (fetchTableSchema cfg t1 (.ok tables) st0).2.2 = true ∧
      fetchTableSchema cfg t2 out2 (fetchTableSchema cfg t1 (.ok tables) st0).2.1
        = ((fetchTableSchema cfg t1 (.ok tables) st0).1,
           (fetchTableSchema cfg t1 (.ok tables) st0).2.1, false)) ∧
    (∀ (cfg : AirtableConfig) (now : Nat) (st : CacheState) (cs : CachedSchema),
      st.cachedSchema = some cs → cs.configKey = configKeyOf cfg →
      ¬ (cs.timestamp ≠ 0 ∧ now - cs.timestamp < cacheTimeoutMs) →
      fetchTableSchema cfg now .httpFail st = (some cs.fieldTypes, st, true)) ∧
    (∀ (cfg : AirtableConfig) (now : Nat) (st : CacheState),
      (∀ cs, st.cachedSchema = some cs → cs.configKey ≠ configKeyOf cfg) →
      fetchTableSchema cfg now .httpFail st = (none, st, true)) ∧
    (∀ (cfg : AirtableConfig) (now : Nat) (st : CacheState) (ss : StoredSchema),
      (∀ cs, st.cachedSchema = some cs →
        ¬ (cs.configKey = configKeyOf cfg ∧ cs.timestamp ≠ 0 ∧
           now - cs.timestamp < cacheTimeoutMs)) →
      st.storage.lookup (schemaStorageKey (configKeyOf cfg)) = some ss →
      fetchTableSchema cfg now .throwFail st
        = (some ss.fieldTypes,
           { st with cachedSchema := some ⟨configKeyOf cfg, ss.fieldTypes, ss.timestamp⟩ },
           true)) ∧
    (∀ (cfg : AirtableConfig) (now : Nat) (st : CacheState),
      (∀ cs, st.cachedSchema = some cs →
        ¬ (cs.configKey = configKeyOf cfg ∧ cs.timestamp ≠ 0 ∧
           now - cs.timestamp < cacheTimeoutMs)) →
      st.storage.lookup (schemaStorageKey (configKeyOf cfg)) = none →
      fetchTableSchema cfg now .throwFail st = (none, st, true)) := by
  refine ⟨?_, ?_, ?_, ?_, ?_, ?_⟩
  · intro cfg now out st cs hst hkey hts hage
    simp only [fetchTableSchema, hst]
    rw [if_pos ⟨hkey, hts, hage⟩]
  · intro cfg t1 t2 out2 tables tb fl st0 hfind hfl ht1 hage hst0
    have hmiss : fetchTableSchemaMiss cfg t1 (.ok tables) st0
        = (some (buildFieldTypes fl),
           { cachedSchema := some ⟨configKeyOf cfg, buildFieldTypes fl, t1⟩,
             storage := assocSet st0.storage (schemaStorageKey (configKeyOf cfg))
               ⟨buildFieldTypes fl, t1⟩ },
           true) := by
      simp only [fetchTableSchemaMiss, hfind, hfl]
    have hfirst : fetchTableSchema cfg t1 (.ok tables) st0
        = (some (buildFieldTypes fl),
           { cachedSchema := some ⟨configKeyOf cfg, buildFieldTypes fl, t1⟩,
             storage := assocSet st0.storage (schemaStorageKey (configKeyOf cfg))
               ⟨buildFieldTypes fl, t1⟩ },
           true) := by
      simp only [fetchTableSchema, hst0]
      exact hmiss
    rw [hfirst]
    refine ⟨rfl, ?_⟩
    simp only [fetchTableSchema]
    rw [if_pos ⟨trivial, ht1, hage⟩]
  · intro cfg now st cs hst hkey hstale
    simp only [fetchTableSchema, fetchTableSchemaMiss, hst]
    rw [if_neg (by rintro ⟨-, h2, h3⟩; exact hstale ⟨h2, h3⟩), if_pos hkey]
  · intro cfg now st hnomatch
    have hmiss : fetchTableSchemaMiss cfg now .httpFail st = (none, st, true) := by
      cases hst : st.cachedSchema with
      | none => simp only [fetchTableSchemaMiss, hst]
      | some cs =>
        simp only [fetchTableSchemaMiss, hst]
        rw [if_neg (hnomatch cs hst)]
    cases hst : st.cachedSchema with
    | none =>
      simp only [fetchTableSchema, hst]
      exact hmiss
    | some cs =>
      simp only [fetchTableSchema, hst]
      rw [if_neg (by rintro ⟨h1, -, -⟩; exact hnomatch cs hst h1)]
      exact hmiss
  · intro cfg now st ss hnohit hstore
    have hmiss : fetchTableSchemaMiss cfg now .throwFail st
        = (some ss.fieldTypes,
           { st with cachedSchema := some ⟨configKeyOf cfg, ss.fieldTypes, ss.timestamp⟩ },
           true) := by
      simp only [fetchTableSchemaMiss, hstore]
    cases hst : st.cachedSchema with
    | none =>
      simp only [fetchTableSchema, hst]
      exact hmiss
    | some cs =>
      simp only [fetchTableSchema, hst]
      rw [if_neg (hnohit cs hst)]
      exact hmiss
  · intro cfg now st hnohit hstore
    have hmiss : fetchTableSchemaMiss cfg now .throwFail st = (none, st, true) := by
      simp only [fetchTableSchemaMiss, hstore]
    cases hst : st.cachedSchema with
    | none =>
      simp only [fetchTableSchema, hst]
      exact hmiss
    | some cs =>
      simp only [fetchTableSchema, hst]
      rw [if_neg (hnohit cs hst)]
      exact hmiss

/-- C2 amended witness: a fresh matching entry is served with no
fetch, and a stale entry with a failing HTTP fetch is served stale. -/
theorem c2_schema_cache_amended_witness :
    fetchTableSchema ⟨"tok", "b", "t"⟩ 1000 .httpFail
        ⟨some ⟨"b:t", [("F", "url")], 500⟩, []⟩
      = (some [("F", "url")], ⟨some ⟨"b:t", [("F", "url")], 500⟩, []⟩, false) ∧
    fetchTableSchema ⟨"tok", "b", "t"⟩ 900000 .httpFail
        ⟨some ⟨"b:t", [("F", "url")], 500⟩, []⟩
      = (some [("F", "url")], ⟨some ⟨"b:t", [("F", "url")], 500⟩, []⟩, true) :=
  ⟨c2_schema_cache_amended.1 ⟨"tok", "b", "t"⟩ 1000 .httpFail
      ⟨some ⟨"b:t", [("F", "url")], 500⟩, []⟩ ⟨"b:t", [("F", "url")], 500⟩
      rfl rfl (by decide) (by decide),
   c2_schema_cache_amended.2.2.1 ⟨"tok", "b", "t"⟩ 900000
      ⟨some ⟨"b:t", [("F", "url")], 500⟩, []⟩ ⟨"b:t", [("F", "url")], 500⟩
      rfl rfl (by decide)⟩

/-- Prepending keeps the no-adjacent-whitespace invariant when the new
head is non-whitespace or the old head is. -/
lemma noAdjacentWS_cons_of (c : Char) (l : List Char)
    (hl : noAdjacentWS l = true)
    (h : jsIsWS c = false ∨ headNotWS l = true) : noAdjacentWS (c :: l) = true := by
  cases l with
  | nil => rfl
  | cons b t =>
    have hb : ¬ (jsIsWS c = true ∧ jsIsWS b = true) := by
      rcases h with h | h
      · rintro ⟨h1, -⟩
        rw [h] at h1
        exact Bool.false_ne_true h1
      · rintro ⟨-, h2⟩
        simp only [headNotWS, h2] at h
        exact Bool.false_ne_true h
    simp only [noAdjacentWS, Bool.and_eq_true, decide_eq_true_eq]
    exact ⟨hb, hl⟩

/-- Characters of a collapsed list are spaces or came from the
input. -/
lemma collapseWSAux_mem :
    ∀ (l : List Char) (b : Bool) (c : Char),
      c ∈ collapseWSAux b l → c = ' ' ∨ c ∈ l := by
  intro l
  induction l with
  | nil =>
    intro b c h
    simp [collapseWSAux] at h
  | cons a t ih =>
    intro b c h
    by_cases ha : jsIsWS a = true
    · cases b with
      | true =>
        simp only [collapseWSAux, ha, if_true] at h
        rcases ih true c h with h | h
        · exact Or.inl h
        · exact Or.inr (List.mem_cons_of_mem a h)
      | false =>
        simp only [collapseWSAux, ha, if_true] at h
        rcases List.mem_cons.mp h with h | h
        · exact Or.inl h
        · rcases ih true c h with h | h
          · exact Or.inl h
          · exact Or.inr (List.mem_cons_of_mem a h)
    · simp only [collapseWSAux, ha] at h
      rcases List.mem_cons.mp h with h | h
      · exact Or.inr (h ▸ List.mem_cons_self a t)
      · rcases ih false c h with h | h
        · exact Or.inl h
        · exact Or.inr (List.mem_cons_of_mem a h)

/-- A collapsed list has no adjacent whitespace, and under the
in-a-run flag it starts with a non-whitespace character. -/
lemma collapseWSAux_shape :
    ∀ l : List Char,
      noAdjacentWS (collapseWSAux false l) = true ∧
      noAdjacentWS (collapseWSAux true l) = true ∧
      headNotWS (collapseWSAux true l) = true := by
  intro l
  induction l with
  | nil => exact ⟨rfl, rfl, rfl⟩
  | cons c rest ih =>
    by_cases hc : jsIsWS c = true
    · refine ⟨?_, ?_, ?_⟩
      · simp only [collapseWSAux, hc, if_true]
        exact noAdjacentWS_cons_of ' ' _ ih.2.1 (Or.inr ih.2.2)
      · simp only [collapseWSAux, hc, if_true]
        exact ih.2.1
      · simp only [collapseWSAux, hc, if_true]
        exact ih.2.2
    · have hstep : ∀ b : Bool, collapseWSAux b (c :: rest) = c :: collapseWSAux false rest := by
        intro b
        simp only [collapseWSAux, hc]
        rfl
      have hns : jsIsWS c = false := by
        rwa [Bool.not_eq_true] at hc
      refine ⟨?_, ?_, ?_⟩
      · rw [hstep false]
        exact noAdjacentWS_cons_of c _ ih.1 (Or.inl hns)
      · rw [hstep true]
        exact noAdjacentWS_cons_of c _ ih.1 (Or.inl hns)
      · rw [hstep true]
        simp [headNotWS, hns]

/-- Taking a prefix keeps the no-adjacent-whitespace invariant. -/
lemma noAdjacentWS_take :
    ∀ (l : List Char) (n : Nat), noAdjacentWS l = true → noAdjacentWS (l.take n) = true := by
  intro l
  induction l with
  | nil =>
    intro n h
    simpa using h
  | cons a t ih =>
    intro n h
    cases n with
    | zero => rfl
    | succ m =>
      rw [List.take_succ_cons]
      cases t with
      | nil =>
        rw [List.take_nil]
        rfl
      | cons b t2 =>
        have hparts : ¬ (jsIsWS a = true ∧ jsIsWS b = true) ∧ noAdjacentWS (b :: t2) = true := by
          have h2 := h
          simp only [noAdjacentWS, Bool.and_eq_true, decide_eq_true_eq] at h2
          exact h2
        cases m with
        | zero => rfl
        | succ k =>
          have htail := ih (k + 1) hparts.2
          rw [List.take_succ_cons] at htail
          simp only [List.take_succ_cons, noAdjacentWS, Bool.and_eq_true,
            decide_eq_true_eq]
          exact ⟨hparts.1, htail⟩

/-- The string branch of sanitizeValue establishes the sanitization
invariant. -/
lemma sanitizeString_sanitized (s : String) :
    sanitizedChars (sanitizeString s).data = true := by
  unfold sanitizeString sanitizedChars
  simp only [Bool.and_eq_true, decide_eq_true_eq]
  refine ⟨⟨?_, ?_⟩, ?_⟩
  · rw [List.length_take]
    exact min_le_left _ _
  · intro hmem
    have hmem2 := List.take_subset _ _ hmem
    rcases collapseWSAux_mem _ false nulChar hmem2 with h | h
    · exact absurd h (by decide)
    · have := (List.mem_filter.mp h).2
      simp at this
  · exact noAdjacentWS_take _ _ (collapseWSAux_shape _).1

mutual
/-- Every value produced by sanitizeValue has all of its strings
sanitized. -/
theorem sanitizeValue_sound : ∀ v : JSVal, stringsSanitized (sanitizeValue v) = true
  | vNull => rfl
  | vUndefined => rfl
  | vBool _ => rfl
  | vNum _ => rfl
  | vDate _ => rfl
  | vStr s => sanitizeString_sanitized s
  | vArr l => sanitizeList_sound l
  | vObj props => sanitizeProps_sound props
/-- Array form of sanitizeValue_sound. -/
theorem sanitizeList_sound : ∀ l : JSList, stringsSanitizedList (sanitizeList l) = true
  | .nil => rfl
  | .cons v rest => by
    simp only [sanitizeList, stringsSanitizedList, Bool.and_eq_true]
    exact ⟨sanitizeValue_sound v, sanitizeList_sound rest⟩
/-- Object form of sanitizeValue_sound. -/
theorem sanitizeProps_sound : ∀ l : JSProps, stringsSanitizedProps (sanitizeProps l) = true
  | .nil => rfl
  | .cons k v rest => by
    simp only [sanitizeProps, stringsSanitizedProps, Bool.and_eq_true]
    exact ⟨sanitizeValue_sound v, sanitizeProps_sound rest⟩
end

/-- Values of an assocSet update come from the list or are the written
value. -/
lemma assocSet_val_mem {α : Type} (l : List (String × α)) (k : String) (v : α)
    (q : String × α) (h : q ∈ assocSet l k v) : q ∈ l ∨ q.2 = v := by
  unfold assocSet at h
  by_cases hc : l.any (fun p => p.1 = k) = true
  · rw [if_pos hc] at h
    rcases List.mem_map.mp h with ⟨p, hp, hval⟩
    by_cases hpk : p.1 = k
    · right
      simp only [hpk, if_pos] at hval
      rw [← hval]
    · left
      simp only [hpk, if_neg, ite_false] at hval
      exact hval ▸ hp
  · rw [if_neg hc] at h
    rcases List.mem_append.mp h with h | h
    · exact Or.inl h
    · right
      simp only [List.mem_singleton] at h
      rw [h]

/-- Every value of the mapper fold output either was already present
or is a sanitizeValue image. -/
lemma mapFold_val_sanitized (cd : List (String × JSVal)) :
    ∀ (l : List (String × String)) (acc : List (String × JSVal)),
      (∀ q ∈ acc, stringsSanitized q.2 = true) →
      ∀ q ∈ (l.foldl
        (fun fields p =>
          let v := contactVal cd p.1
          if p.2 ≠ "" ∧ jsTruthy v ∧ v ≠ vStr "" then
            assocSet fields p.2 (sanitizeValue v)
          else fields)
        acc), stringsSanitized q.2 = true := by
  intro l
  induction l with
  | nil =>
    intro acc hacc q hq
    exact hacc q hq
  | cons p rest ih =>
    intro acc hacc q hq
    rw [List.foldl_cons] at hq
    refine ih _ ?_ q hq
    intro r hr
    by_cases hc : p.2 ≠ "" ∧ jsTruthy (contactVal cd p.1) = true ∧
        contactVal cd p.1 ≠ vStr ""
    · simp only [if_pos hc] at hr
      rcases assocSet_val_mem acc p.2 (sanitizeValue (contactVal cd p.1)) r hr with h | h
      · exact hacc r h
      · rw [h]
        exact sanitizeValue_sound _
    · simp only [if_neg hc] at hr
      exact hacc r hr

/-- C8 amended: every string value in the output of the mapper,
recursively through arrays and plain objects, contains no NUL byte, no
run of consecutive whitespace, and at most 100000 characters.  (The
no-leading-or-trailing-whitespace part of the original claim is false;
see the counterexample: stripping surrounding quotes after trimming
can expose one boundary space.) -/
theorem c8_mapped_values_sanitized :
    ∀ (contactData : List (String × JSVal)) (fieldMappings : List (String × String)),
      ∀ q ∈ mapContactDataToAirtable contactData fieldMappings,
        stringsSanitized q.2 = true := by
  intro cd fm q hq
  unfold mapContactDataToAirtable at hq
  exact mapFold_val_sanitized cd (mergeMappings fm) [] (by intro r hr; simp at hr) q hq

/-- C8 witness: the mapped value of a concrete record satisfies the
invariant. -/
theorem c8_mapped_values_sanitized_witness :
    ("Name", vStr "a b") ∈ mapContactDataToAirtable [("fullName", vStr "a  b")] [] ∧
    stringsSanitized (vStr "a b") = true :=
  ⟨by decide,
   c8_mapped_values_sanitized [("fullName", vStr "a  b")] [] ("Name", vStr "a b")
     (by decide)⟩

/-- A value whose typeof is string is a string literal. -/
lemma eq_vStr_of_typeof (v : JSVal) (h : jsTypeofStr v = "string") : ∃ s, v = vStr s := by
  cases v <;> simp [jsTypeofStr] at h <;> exact ⟨_, rfl⟩

/-- A string-or-falsy value defaulted with the empty string is a
string. -/
lemma jsOr_default_str (v : JSVal) (h : strOrFalsy v = true) :
    ∃ s, jsOr v (vStr "") = vStr s := by
  unfold jsOr
  by_cases ht : jsTruthy v = true
  · rw [if_pos ht]
    unfold strOrFalsy at h
    rcases Bool.or_eq_true _ _ |>.mp h with h | h
    · exact eq_vStr_of_typeof v (by simpa using h)
    · simp only [decide_eq_true_eq, Bool.not_eq_true] at h
      rw [ht] at h
      exact absurd h (by decide)
  · rw [if_neg ht]
    exact ⟨"", rfl⟩

/-- The HTTP-status override keeps string messages string. -/
lemma httpStatusOverride_str (em : String) (m : JSVal)
    (h : jsTypeofStr m = "string") :
    jsTypeofStr (httpStatusOverride em m) = "string" := by
  unfold httpStatusOverride
  split_ifs <;> first | rfl | exact h

/-- The structured branch never throws on a string message, and any
message override it produces is a string. -/
lemma structuredErrorUpdate_total (t : JSVal) (s : String) :
    okWithStrMsg (structuredErrorUpdate t (vStr s)) := by
  unfold structuredErrorUpdate
  split_ifs <;>
    first
      | (simp [okWithStrMsg, jsMatchQuoted, jsMatchField, jsMatchDiscard, Bind.bind,
          Except.bind, Except.map, jsToLowerIncludes, jsTypeofStr]
         done)
      | (cases hcap : reQuotedCapture s <;>
          (simp [okWithStrMsg, jsMatchQuoted, jsMatchField, jsMatchDiscard, Bind.bind,
            Except.bind, Except.map, jsToLowerIncludes, jsTypeofStr, hcap]
           done))
      | (cases hcap : reFieldCapture s <;>
          (simp [okWithStrMsg, jsMatchQuoted, jsMatchField, jsMatchDiscard, Bind.bind,
            Except.bind, Except.map, jsToLowerIncludes, jsTypeofStr, hcap]
           done))

/-- The body-inspection step never throws on a well-formed body, and
its message is a string. -/
lemma parseErrorStep_total (em : String) (rd : JSVal)
    (hwf : wellFormedBody rd = true) :
    ∃ r, parseErrorStep em rd = .ok r ∧ jsTypeofStr r.1 = "string" := by
  have hwf1 : strOrFalsy (jsGetProp (jsGetProp rd "error") "message") = true :=
    ((Bool.and_eq_true _ _).mp hwf).1
  have hwf2 : strOrFalsy (jsGetProp rd "message") = true :=
    ((Bool.and_eq_true _ _).mp hwf).2
  unfold parseErrorStep
  by_cases hobj : jsTruthy rd = true ∧ jsTypeofStr rd = "object"
  · rw [if_pos hobj]
    by_cases hae : jsTruthy (jsGetProp rd "error") = true ∧
        jsTypeofStr (jsGetProp rd "error") = "object"
    · rw [if_pos hae]
      obtain ⟨s, hs⟩ := jsOr_default_str _ hwf1
      have hok := structuredErrorUpdate_total
        (jsOr (jsGetProp (jsGetProp rd "error") "type") (vStr "")) s
      rw [hs]
      cases hu : structuredErrorUpdate
          (jsOr (jsGetProp (jsGetProp rd "error") "type") (vStr "")) (vStr s) with
      | error e =>
        rw [hu] at hok
        exact absurd hok (by simp [okWithStrMsg])
      | ok r =>
        rw [hu] at hok
        refine ⟨_, rfl, ?_⟩
        show jsTypeofStr (r.1.getD (vStr em)) = "string"
        cases hro : r.1 with
        | none => rfl
        | some m =>
          rw [Option.getD_some]
          exact hok m hro
    · rw [if_neg hae]
      by_cases hmsg : jsTruthy (jsGetProp rd "message") = true
      · rw [if_pos hmsg]
        refine ⟨_, rfl, ?_⟩
        unfold strOrFalsy at hwf2
        rcases Bool.or_eq_true _ _ |>.mp hwf2 with h | h
        · simpa using h
        · simp only [decide_eq_true_eq, Bool.not_eq_true] at h
          rw [hmsg] at h
          exact absurd h (by decide)
      · rw [if_neg hmsg]
        exact ⟨_, rfl, rfl⟩
  · rw [if_neg hobj]
    exact ⟨_, rfl, rfl⟩

/-- C10 amended: parseAirtableError returns a result (with a string
message and its two diagnostic lists) for every Error message, every
sent-field set, and every response body whose truthy message slots are
strings — in particular for a null body, a non-object body, or an
object missing the error field.  Full totality is false: with a truthy
non-string error message under a structured error type, the source
calls a string method on a non-string and throws (see the
counterexample). -/
theorem c10_parse_error_total_amended :
    ∀ (errorMessage0 : String) (responseData sentFields : JSVal),
      wellFormedBody responseData = true →
      ∃ info, parseAirtableError errorMessage0 responseData sentFields = .ok info ∧
        jsTypeofStr info.message = "string" := by
  intro em rd sf hwf
  obtain ⟨r, hr, hstr⟩ := parseErrorStep_total em rd hwf
  refine ⟨⟨httpStatusOverride em r.1, r.2.1, r.2.2⟩, ?_, ?_⟩
  · unfold parseAirtableError
    rw [hr]
    rfl
  · exact httpStatusOverride_str em r.1 hstr

/-- C10 amended witness: a null body is well-formed and parses to an
ok result with a string message. -/
theorem c10_parse_error_total_amended_witness :
    wellFormedBody vNull = true ∧
    ∃ info, parseAirtableError "boom" vNull vNull = .ok info ∧
      jsTypeofStr info.message = "string" :=
  ⟨by decide, c10_parse_error_total_amended "boom" vNull vNull (by decide)⟩

/-! ### Support for the second-pass characterization (C5) -/

/-- Dropping a satisfied prefix twice is dropping it once. -/
lemma dropWhile_jsWS_idem (l : List Char) :
    (l.dropWhile (fun c => jsIsWS c)).dropWhile (fun c => jsIsWS c)
      = l.dropWhile (fun c => jsIsWS c) := by
  induction l with
  | nil => rfl
  | cons c t ih =>
    by_cases hc : jsIsWS c = true
    · rw [List.dropWhile_cons, if_pos hc, ih]
    · rw [List.dropWhile_cons, if_neg hc, List.dropWhile_cons, if_neg hc]

/-- The head after dropping whitespace is not whitespace. -/
lemma headNotWS_dropWhile (l : List Char) :
    headNotWS (l.dropWhile (fun c => jsIsWS c)) = true := by
  induction l with
  | nil => rfl
  | cons c t ih =>
    by_cases hc : jsIsWS c = true
    · rw [List.dropWhile_cons, if_pos hc]
      exact ih
    · rw [List.dropWhile_cons, if_neg hc]
      simp only [headNotWS, decide_eq_true_eq]
      exact hc

/-- A list with a non-whitespace head is unchanged by the drop. -/
lemma dropWhile_eq_self_of_headNotWS (l : List Char) (h : headNotWS l = true) :
    l.dropWhile (fun c => jsIsWS c) = l := by
  cases l with
  | nil => rfl
  | cons c t =>
    simp only [headNotWS, decide_eq_true_eq, Bool.not_eq_true] at h
    rw [List.dropWhile_cons, if_neg (by simp [h])]

/-- trimRight leaves a list whose last character is not whitespace. -/
lemma lastNotWS_trimRight (l : List Char) : lastNotWS (trimRightChars l) = true := by
  unfold lastNotWS trimRightChars
  rw [List.reverse_reverse]
  exact headNotWS_dropWhile l.reverse

/-- A list already ending in non-whitespace is unchanged by
trimRight. -/
lemma trimRight_eq_self_of_lastNotWS (l : List Char) (h : lastNotWS l = true) :
    trimRightChars l = l := by
  unfold trimRightChars
  rw [dropWhile_eq_self_of_headNotWS l.reverse h, List.reverse_reverse]

/-- A nonempty prefix shares its head, so trimLeft preserves a
non-whitespace ending. -/
lemma lastNotWS_trimLeft (l : List Char) (h : lastNotWS l = true) :
    lastNotWS (trimLeftChars l) = true := by
  unfold lastNotWS
  obtain ⟨u, hu⟩ : trimLeftChars l <:+ l := List.dropWhile_suffix _
  cases hr : (trimLeftChars l).reverse with
  | nil => rfl
  | cons c t =>
    have hlrev : l.reverse = c :: (t ++ u.reverse) := by
      rw [← hu, List.reverse_append, hr]
      rfl
    unfold lastNotWS at h
    rw [hlrev] at h
    simpa [headNotWS] using h

/-- Trimming is idempotent. -/
lemma trimChars_idem (l : List Char) : trimChars (trimChars l) = trimChars l := by
  unfold trimChars
  have h2 : lastNotWS (trimLeftChars (trimRightChars l)) = true :=
    lastNotWS_trimLeft _ (lastNotWS_trimRight l)
  rw [trimRight_eq_self_of_lastNotWS _ h2]
  unfold trimLeftChars
  exact dropWhile_jsWS_idem _

/-- Trimmed characters come from the original list. -/
lemma trimChars_subset (l : List Char) : trimChars l ⊆ l := by
  unfold trimChars trimLeftChars trimRightChars
  intro c hc
  have h1 := (List.dropWhile_suffix (l := (l.reverse.dropWhile
    (fun c => jsIsWS c)).reverse) (fun c => jsIsWS c)).subset hc
  rw [List.mem_reverse] at h1
  have h2 := (List.dropWhile_suffix (l := l.reverse) (fun c => jsIsWS c)).subset h1
  rwa [List.mem_reverse] at h2

/-- Segments produced by the split worker never contain the
separator, provided the accumulator does not. -/
lemma splitOnCharAux_no_sep (sep : Char) :
    ∀ (l acc : List Char), sep ∉ acc →
      ∀ seg ∈ splitOnCharAux sep l acc, sep ∉ seg := by
  intro l
  induction l with
  | nil =>
    intro acc hacc seg hseg
    simp only [splitOnCharAux, List.mem_singleton] at hseg
    rw [hseg, List.mem_reverse]
    exact hacc
  | cons c t ih =>
    intro acc hacc seg hseg
    by_cases hc : c = sep
    · simp only [splitOnCharAux, hc, if_pos rfl] at hseg
      rcases List.mem_cons.mp hseg with h | h
      · rw [h, List.mem_reverse]
        exact hacc
      · exact ih [] (by simp) seg h
    · simp only [splitOnCharAux, if_neg hc] at hseg
      refine ih (c :: acc) ?_ seg hseg
      intro hmem
      rcases List.mem_cons.mp hmem with h | h
      · exact hc h.symm
      · exact hacc h

/-- Segments of a split never contain the separator. -/
lemma splitOnChar_no_sep (sep : Char) (l : List Char) :
    ∀ seg ∈ splitOnChar sep l, sep ∉ seg :=
  splitOnCharAux_no_sep sep l [] (by simp)

/-- Splitting a separator-free list yields that single segment. -/
lemma splitOnCharAux_single (sep : Char) :
    ∀ (l acc : List Char), sep ∉ l →
      splitOnCharAux sep l acc = [acc.reverse ++ l] := by
  intro l
  induction l with
  | nil =>
    intro acc _
    simp [splitOnCharAux]
  | cons c t ih =>
    intro acc h
    have hc : ¬ c = sep := fun he => h (he ▸ List.mem_cons_self c t)
    simp only [splitOnCharAux, if_neg hc]
    rw [ih (c :: acc) (fun hm => h (List.mem_cons_of_mem c hm))]
    simp

/-- splitOnChar on a separator-free list. -/
lemma splitOnChar_single (sep : Char) (l : List Char) (h : sep ∉ l) :
    splitOnChar sep l = [l] := by
  unfold splitOnChar
  rw [splitOnCharAux_single sep l [] h]
  rfl

/-- Every piece of the comma-split-trim-filter is nonempty,
comma-free and trimmed. -/
lemma splitTrimFilterStr_elems (s : String) :
    ∀ e ∈ splitTrimFilterStr s,
      e ≠ "" ∧ ',' ∉ e.data ∧ trimChars e.data = e.data := by
  intro e he
  unfold splitTrimFilterStr at he
  have hf := List.mem_filter.mp he
  obtain ⟨seg, hseg, hval⟩ := List.mem_map.mp hf.1
  have hne : e ≠ "" := by simpa using hf.2
  refine ⟨hne, ?_, ?_⟩
  · rw [← hval]
    intro hmem
    exact splitOnChar_no_sep ',' s.data seg hseg (trimChars_subset seg hmem)
  · rw [← hval]
    show trimChars (trimChars seg) = trimChars seg
    exact trimChars_idem seg

/-- Re-splitting one produced piece returns exactly that piece. -/
lemma splitTrimFilterStr_piece (e : String) (hne : e ≠ "")
    (hcomma : ',' ∉ e.data) (htrim : trimChars e.data = e.data) :
    splitTrimFilterStr e = [e] := by
  unfold splitTrimFilterStr
  rw [splitOnChar_single ',' e.data hcomma]
  simp [htrim, hne]

/-- The core digit printer never returns the empty list when given
fuel or a nonempty accumulator. -/
lemma toDigitsCore_ne_nil (b : Nat) :
    ∀ (f n : Nat) (ds : List Char), ds ≠ [] ∨ f ≠ 0 →
      Nat.toDigitsCore b f n ds ≠ [] := by
  intro f
  induction f with
  | zero =>
    intro n ds h
    rcases h with h | h
    · simpa [Nat.toDigitsCore] using h
    · exact absurd rfl h
  | succ f ih =>
    intro n ds _
    simp only [Nat.toDigitsCore]
    by_cases hz : n / b = 0
    · rw [if_pos hz]
      simp
    · rw [if_neg hz]
      exact ih (n / b) _ (Or.inl (by simp))

/-- Decimal representation of a natural number is never empty. -/
lemma natRepr_ne_empty (n : Nat) : Nat.repr n ≠ "" := by
  unfold Nat.repr
  intro h
  have hd : Nat.toDigits 10 n = [] := by
    have := congrArg String.data h
    simpa [List.asString] using this
  exact toDigitsCore_ne_nil 10 (n + 1) n [] (Or.inr (Nat.succ_ne_zero n))
    (by simpa [Nat.toDigits] using hd)

/-- Decimal representation of an integer is never empty. -/
lemma intToString_ne_empty (i : Int) : toString i ≠ "" := by
  show Int.repr i ≠ ""
  cases i with
  | ofNat m => exact natRepr_ne_empty m
  | negSucc m =>
    intro h
    have := congrArg String.data h
    simp only [Int.repr] at this
    rw [String.data_append] at this
    simp at this

/-- The rendering of a number value is never empty. -/
lemma jsToString_vNum_ne_empty (q : Rat) : jsToString (vNum q) ≠ "" := by
  unfold jsToString
  by_cases hd : q.den = 1
  · rw [if_pos hd]
    exact intToString_ne_empty q.num
  · rw [if_neg hd]
    intro h
    have := congrArg String.data h
    rw [String.data_append, String.data_append] at this
    rcases List.append_eq_nil.mp this with ⟨h1, -⟩
    rcases List.append_eq_nil.mp h1 with ⟨h2, -⟩
    exact intToString_ne_empty q.num (by apply String.ext; simpa using h2)

/-- The rendering of a value that is neither a string nor an array is
never empty. -/
lemma jsToString_ne_empty_of_not_str_arr (v : JSVal)
    (hs : ∀ s, v ≠ vStr s) (ha : ∀ l, v ≠ vArr l) : jsToString v ≠ "" := by
  cases v with
  | vStr s => exact absurd rfl (hs s)
  | vArr l => exact absurd rfl (ha l)
  | vNum q => exact jsToString_vNum_ne_empty q
  | vNull => decide
  | vUndefined => decide
  | vBool b => cases b <;> decide
  | vObj props =>
    intro h
    have := congrArg String.data h
    simp [jsToString] at this
  | vDate iso =>
    intro h
    have := congrArg String.data h
    rw [show jsToString (vDate iso) = "Date(" ++ iso ++ ")" from rfl,
      String.data_append, String.data_append] at this
    rcases List.append_eq_nil.mp this with ⟨h1, -⟩
    rcases List.append_eq_nil.mp h1 with ⟨h2, -⟩
    simp at h2

/-- The heuristic transform is idempotent: its outputs are its
fixpoints. -/
lemma transformByHeuristic_idem (n : String) (v : JSVal) :
    transformByHeuristic n (transformByHeuristic n v) = transformByHeuristic n v := by
  cases v with
  | vStr s =>
    by_cases hpic : startsWithHttp s = true ∧
        (jsIncludes (String.mk (lowerChars n.data)) "picture" = true ∨
         jsIncludes (String.mk (lowerChars n.data)) "photo" = true ∨
         jsIncludes (String.mk (lowerChars n.data)) "image" = true)
    · have hinner : transformByHeuristic n (vStr s) = vStr s := by
        simp only [transformByHeuristic]
        rw [if_pos hpic]
        rfl
      rw [hinner, hinner]
    · by_cases htag : jsIncludes (String.mk (lowerChars n.data)) "tag" = true ∨
          jsIncludes (String.mk (lowerChars n.data)) "categor" = true
      · rcases hitems : splitTrimFilterStr s with _ | ⟨e, rest⟩
        · have hinner : transformByHeuristic n (vStr s) = vStr s := by
            simp only [transformByHeuristic]
            rw [if_neg hpic, if_pos htag, hitems]
            simp
          rw [hinner, hinner]
        · rcases rest with _ | ⟨f, rest2⟩
          · have helem := splitTrimFilterStr_elems s e (by rw [hitems]; exact List.mem_singleton_self e)
            have hinner : transformByHeuristic n (vStr s) = vStr e := by
              simp only [transformByHeuristic]
              rw [if_neg hpic, if_pos htag, hitems]
              simp
            rw [hinner]
            by_cases hpic2 : startsWithHttp e = true ∧
                (jsIncludes (String.mk (lowerChars n.data)) "picture" = true ∨
                 jsIncludes (String.mk (lowerChars n.data)) "photo" = true ∨
                 jsIncludes (String.mk (lowerChars n.data)) "image" = true)
            · simp only [transformByHeuristic]
              rw [if_pos hpic2]
              rfl
            · simp only [transformByHeuristic]
              rw [if_neg hpic2, if_pos htag,
                splitTrimFilterStr_piece e helem.1 helem.2.1 helem.2.2]
              simp
          · have hinner : transformByHeuristic n (vStr s)
                = vArr (strListToJS (e :: f :: rest2)) := by
              simp only [transformByHeuristic]
              rw [if_neg hpic, if_pos htag, hitems]
              simp
            rw [hinner]
            simp only [transformByHeuristic]
            exact ite_self _
      · have hinner : transformByHeuristic n (vStr s) = vStr s := by
          simp only [transformByHeuristic]
          rw [if_neg hpic, if_neg htag]
        rw [hinner, hinner]
  | vNull =>
    have h : transformByHeuristic n vNull = vNull := by
      simp only [transformByHeuristic]
      exact ite_self _
    rw [h, h]
  | vUndefined =>
    have h : transformByHeuristic n vUndefined = vUndefined := by
      simp only [transformByHeuristic]
      exact ite_self _
    rw [h, h]
  | vBool b =>
    have h : transformByHeuristic n (vBool b) = vBool b := by
      simp only [transformByHeuristic]
      exact ite_self _
    rw [h, h]
  | vNum q =>
    have h : transformByHeuristic n (vNum q) = vNum q := by
      simp only [transformByHeuristic]
      exact ite_self _
    rw [h, h]
  | vDate iso =>
    have h : transformByHeuristic n (vDate iso) = vDate iso := by
      simp only [transformByHeuristic]
      exact ite_self _
    rw [h, h]
  | vArr l =>
    have h : transformByHeuristic n (vArr l) = vArr l := by
      simp only [transformByHeuristic]
      exact ite_self _
    rw [h, h]
  | vObj props =>
    have h : transformByHeuristic n (vObj props) = vObj props := by
      simp only [transformByHeuristic]
      exact ite_self _
    rw [h, h]

/-- An http prefix forces a nonempty string. -/
lemma ne_empty_of_startsWithHttp {s : String} (h : startsWithHttp s = true) : s ≠ "" := by
  intro he
  subst he
  exact absurd h (by decide)

/-- A URL-scheme prefix is in particular an http prefix. -/
lemma startsWithHttp_of_scheme {s : String} (h : startsWithHttpScheme s = true) :
    startsWithHttp s = true := by
  unfold startsWithHttpScheme jsStartsWith at h
  unfold startsWithHttp jsStartsWith
  rcases Bool.or_eq_true _ _ |>.mp h with h | h
  · exact List.isPrefixOf_iff_prefix.mpr
      ((List.isPrefixOf_iff_prefix.mp (by decide :
          ("http".data.isPrefixOf "http://".data) = true)).trans
        (List.isPrefixOf_iff_prefix.mp h))
  · exact List.isPrefixOf_iff_prefix.mpr
      ((List.isPrefixOf_iff_prefix.mp (by decide :
          ("http".data.isPrefixOf "https://".data) = true)).trans
        (List.isPrefixOf_iff_prefix.mp h))

/-- The embedded array of a list of strings, as a Lean list. -/
lemma strListToJS_toList (xs : List String) :
    (strListToJS xs).toList = xs.map vStr := by
  induction xs with
  | nil => rfl
  | cons x rest ih =>
    show vStr x :: (strListToJS rest).toList = _
    rw [ih]
    rfl

/-- Elements surviving the linked-record filter are nonempty non-URL
strings. -/
lemma linkIdsFilter_elems :
    ∀ l : JSList, ∀ e ∈ (linkIdsFilter l).toList,
      ∃ s, e = vStr s ∧ s ≠ "" ∧ startsWithHttpScheme s = false
  | .nil => by
    intro e he
    simp [linkIdsFilter, JSList.toList] at he
  | .cons v rest => by
    intro e he
    have ih := linkIdsFilter_elems rest
    cases v with
    | vStr s =>
      by_cases hc : s ≠ "" ∧ ¬ startsWithHttpScheme s = true
      · simp only [linkIdsFilter, if_pos hc] at he
        rcases List.mem_cons.mp he with h | h
        · exact ⟨s, h, hc.1, by simpa using hc.2⟩
        · exact ih e h
      · simp only [linkIdsFilter, if_neg hc] at he
        exact ih e he
    | vNull => exact ih e he
    | vUndefined => exact ih e he
    | vBool b => exact ih e he
    | vNum q => exact ih e he
    | vDate iso => exact ih e he
    | vArr l2 => exact ih e he
    | vObj props => exact ih e he

/-- The linked-record filter fixes a list of nonempty non-URL
strings. -/
lemma linkIdsFilter_id :
    ∀ l : JSList,
      (∀ e ∈ l.toList, ∃ s, e = vStr s ∧ s ≠ "" ∧ startsWithHttpScheme s = false) →
      linkIdsFilter l = l
  | .nil => by intro _; rfl
  | .cons v rest => by
    intro h
    obtain ⟨s, hv, hne, hsch⟩ := h v (List.mem_cons_self _ _)
    subst hv
    have hcond : s ≠ "" ∧ ¬ startsWithHttpScheme s = true := ⟨hne, by simp [hsch]⟩
    show (if s ≠ "" ∧ ¬ startsWithHttpScheme s = true
        then JSList.cons (vStr s) (linkIdsFilter rest) else linkIdsFilter rest)
      = JSList.cons (vStr s) rest
    rw [if_pos hcond, linkIdsFilter_id rest (fun e he => h e (List.mem_cons_of_mem _ he))]

/-- Elements surviving the attachment mapper are non-null objects with
a truthy url property. -/
lemma attachMapFilter_elems :
    ∀ l : JSList, ∀ e ∈ (attachMapFilter l).toList,
      jsTypeofStr e = "object" ∧ e ≠ vNull ∧ jsTruthy (jsGetProp e "url") = true
  | .nil => by
    intro e he
    simp [attachMapFilter, JSList.toList] at he
  | .cons v rest => by
    intro e he
    have ih := attachMapFilter_elems rest
    cases v with
    | vStr s =>
      by_cases hs : startsWithHttp s = true
      · simp only [attachMapFilter, if_pos hs] at he
        rcases List.mem_cons.mp he with h | h
        · subst h
          refine ⟨rfl, by simp, ?_⟩
          show jsTruthy (vStr s) = true
          simp [jsTruthy, ne_empty_of_startsWithHttp hs]
        · exact ih e h
      · simp only [attachMapFilter, if_neg hs] at he
        exact ih e he
    | vNull =>
      simp only [attachMapFilter] at he
      rw [if_neg (by simp)] at he
      exact ih e he
    | vUndefined =>
      simp only [attachMapFilter] at he
      rw [if_neg (by simp [jsTypeofStr])] at he
      exact ih e he
    | vBool b =>
      simp only [attachMapFilter] at he
      rw [if_neg (by simp [jsTypeofStr])] at he
      exact ih e he
    | vNum q =>
      simp only [attachMapFilter] at he
      rw [if_neg (by simp [jsTypeofStr])] at he
      exact ih e he
    | vDate iso =>
      simp only [attachMapFilter] at he
      by_cases hc : jsTypeofStr (vDate iso) = "object" ∧ (vDate iso) ≠ vNull ∧
          jsTruthy (jsGetProp (vDate iso) "url") = true
      · rw [if_pos hc] at he
        rcases List.mem_cons.mp he with h | h
        · subst h
          exact hc
        · exact ih e h
      · rw [if_neg hc] at he
        exact ih e he
    | vArr l2 =>
      simp only [attachMapFilter] at he
      by_cases hc : jsTypeofStr (vArr l2) = "object" ∧ (vArr l2) ≠ vNull ∧
          jsTruthy (jsGetProp (vArr l2) "url") = true
      · rw [if_pos hc] at he
        rcases List.mem_cons.mp he with h | h
        · subst h
          exact hc
        · exact ih e h
      · rw [if_neg hc] at he
        exact ih e he
    | vObj props =>
      simp only [attachMapFilter] at he
      by_cases hc : jsTypeofStr (vObj props) = "object" ∧ (vObj props) ≠ vNull ∧
          jsTruthy (jsGetProp (vObj props) "url") = true
      · rw [if_pos hc] at he
        rcases List.mem_cons.mp he with h | h
        · subst h
          exact hc
        · exact ih e h
      · rw [if_neg hc] at he
        exact ih e he

/-- The attachment mapper fixes a list of non-null objects with truthy
url properties. -/
lemma attachMapFilter_id :
    ∀ l : JSList,
      (∀ e ∈ l.toList,
        jsTypeofStr e = "object" ∧ e ≠ vNull ∧ jsTruthy (jsGetProp e "url") = true) →
      attachMapFilter l = l
  | .nil => by intro _; rfl
  | .cons v rest => by
    intro h
    have hv := h v (List.mem_cons_self _ _)
    have hrec := attachMapFilter_id rest (fun e he => h e (List.mem_cons_of_mem _ he))
    cases v with
    | vStr s => exact absurd hv.1 (by simp [jsTypeofStr])
    | vNull => exact absurd rfl hv.2.1
    | vUndefined => exact absurd hv.1 (by simp [jsTypeofStr])
    | vBool b => exact absurd hv.1 (by simp [jsTypeofStr])
    | vNum q => exact absurd hv.1 (by simp [jsTypeofStr])
    | vDate iso =>
      simp only [attachMapFilter, if_pos hv]
      rw [hrec]
    | vArr l2 =>
      simp only [attachMapFilter, if_pos hv]
      rw [hrec]
    | vObj props =>
      simp only [attachMapFilter, if_pos hv]
      rw [hrec]

/-- Elements surviving the multi-select mapper are nonempty
strings. -/
lemma selectsMapFilter_elems :
    ∀ l : JSList, ∀ e ∈ (selectsMapFilter l).toList,
      ∃ s, e = vStr s ∧ s ≠ ""
  | .nil => by
    intro e he
    simp [selectsMapFilter, JSList.toList] at he
  | .cons v rest => by
    intro e he
    have ih := selectsMapFilter_elems rest
    simp only [selectsMapFilter] at he
    by_cases hs : jsToString v ≠ ""
    · rw [if_pos hs] at he
      rcases List.mem_cons.mp he with h | h
      · exact ⟨jsToString v, h, hs⟩
      · exact ih e h
    · rw [if_neg hs] at he
      exact ih e he

/-- The multi-select mapper fixes a list of nonempty strings. -/
lemma selectsMapFilter_id :
    ∀ l : JSList,
      (∀ e ∈ l.toList, ∃ s, e = vStr s ∧ s ≠ "") →
      selectsMapFilter l = l
  | .nil => by intro _; rfl
  | .cons v rest => by
    intro h
    obtain ⟨s, hv, hne⟩ := h v (List.mem_cons_self _ _)
    subst hv
    have hjs : jsToString (vStr s) = s := rfl
    simp only [selectsMapFilter, hjs, if_pos hne]
    rw [selectsMapFilter_id rest (fun e he => h e (List.mem_cons_of_mem _ he))]

/-- The per-element check over an embedded array, as a Lean
quantifier. -/
lemma JSList.all_eq_true (p : JSVal → Bool) :
    ∀ l : JSList, JSList.all p l = true ↔ ∀ e ∈ l.toList, p e = true
  | .nil => by simp [JSList.all, JSList.toList]
  | .cons v rest => by
    rw [show JSList.all p (.cons v rest) = (p v && JSList.all p rest) from rfl,
      Bool.and_eq_true, JSList.all_eq_true p rest]
    constructor
    · rintro ⟨h1, h2⟩ e he
      rcases List.mem_cons.mp he with h | h
      · exact h ▸ h1
      · exact h2 e h
    · intro h
      exact ⟨h v (List.mem_cons_self _ _),
        fun e he => h e (List.mem_cons_of_mem _ he)⟩

/-- An unknown type falls to the pass-through arm of the transform. -/
lemma transformByFieldType_default (n : String) (v : JSVal) (t : String)
    (ht : t ∉ knownFieldTypes) : transformByFieldType n v t = v := by
  unfold transformByFieldType
  split <;> first
    | rfl
    | exact absurd (by decide) ht

/-- The four quote-stripping types. -/
lemma textishType_cases {t : String} (h : textishType t = true) :
    t = "singleSelect" ∨ t = "singleLineText" ∨ t = "multilineText" ∨ t = "richText" := by
  simp only [textishType, Bool.or_eq_true, decide_eq_true_eq] at h
  tauto

/-- A quote-stripping type always transforms to a string. -/
lemma textish_transform (n : String) (v : JSVal) {t : String} (h : textishType t = true) :
    ∃ s2, transformByFieldType n v t = vStr s2 := by
  rcases textishType_cases h with h | h | h | h <;> subst h <;> exact ⟨_, rfl⟩

/-- A quote-stripping type on a string input strips and trims it. -/
lemma textish_retransform (n : String) (s : String) {t : String}
    (h : textishType t = true) :
    transformByFieldType n (vStr s) t = vStr (stripQuotesTrim s) := by
  rcases textishType_cases h with h | h | h | h <;> subst h <;> rfl

/-- A quote-stripping type validates any string. -/
lemma textish_validate (n : String) (s : String) {t : String}
    (h : textishType t = true) : validateFieldValue n (vStr s) t = none := by
  rcases textishType_cases h with h | h | h | h <;> subst h <;> rfl

/-- A quote-stripping type is not the linked-record type. -/
lemma textish_ne_mRL {t : String} (h : textishType t = true) :
    t ≠ "multipleRecordLinks" := by
  rcases textishType_cases h with h | h | h | h <;> subst h <;> decide

/-- Numeric re-transformation is the identity on surviving values. -/
lemma retransform_numeric (n : String) (v w : JSVal) {t : String}
    (ht : t = "number" ∨ t = "currency" ∨ t = "percent" ∨ t = "rating")
    (hw : transformByFieldType n v t = w) (hnn : w ≠ vNull) :
    transformByFieldType n w t = w := by
  rcases ht with h | h | h | h <;> subst h <;>
  · have hw2 : (match jsParseFloat v with
      | none => vNull
      | some q => vNum q) = w := hw
    cases hpf : jsParseFloat v with
    | none =>
      rw [hpf] at hw2
      exact absurd hw2.symm hnn
    | some q =>
      rw [hpf] at hw2
      rw [← hw2]
      rfl

/-- Checkbox re-transformation is the identity on transform
outputs. -/
lemma retransform_checkbox (n : String) (v w : JSVal)
    (hw : transformByFieldType n v "checkbox" = w) :
    transformByFieldType n w "checkbox" = w := by
  obtain ⟨b, rfl⟩ : ∃ b, w = vBool b := by
    rw [← hw]
    cases v with
    | vBool b => exact ⟨b, rfl⟩
    | vStr s => exact ⟨_, rfl⟩
    | vNull => exact ⟨_, rfl⟩
    | vUndefined => exact ⟨_, rfl⟩
    | vNum q => exact ⟨_, rfl⟩
    | vDate iso => exact ⟨_, rfl⟩
    | vArr l => exact ⟨_, rfl⟩
    | vObj props => exact ⟨_, rfl⟩
  rfl

/-- Date and date-time re-transformation is the identity on transform
outputs. -/
lemma retransform_datelike (n : String) (v w : JSVal) {t : String}
    (ht : t = "date" ∨ t = "dateTime")
    (hw : transformByFieldType n v t = w) :
    transformByFieldType n w t = w := by
  rcases ht with h | h <;> subst h <;>
  · obtain ⟨s, rfl⟩ : ∃ s, w = vStr s := by
      rw [← hw]
      cases v with
      | vDate iso => exact ⟨iso, rfl⟩
      | vNull => exact ⟨_, rfl⟩
      | vUndefined => exact ⟨_, rfl⟩
      | vBool b => exact ⟨_, rfl⟩
      | vNum q => exact ⟨_, rfl⟩
      | vStr s => exact ⟨_, rfl⟩
      | vArr l => exact ⟨_, rfl⟩
      | vObj props => exact ⟨_, rfl⟩
    rfl

/-- URL, email and phone re-transformation is the identity on
transform outputs. -/
lemma retransform_urlish (n : String) (v w : JSVal) {t : String}
    (ht : t = "url" ∨ t = "email" ∨ t = "phoneNumber")
    (hw : transformByFieldType n v t = w) :
    transformByFieldType n w t = w := by
  rcases ht with h | h | h <;> subst h <;>
  · obtain ⟨s, rfl⟩ : ∃ s, w = vStr s := by
      rw [← hw]
      exact ⟨_, rfl⟩
    rfl

/-- Multi-select re-transformation is the identity on transform
outputs. -/
lemma retransform_selects (n : String) (v w : JSVal)
    (hw : transformByFieldType n v "multipleSelects" = w) :
    transformByFieldType n w "multipleSelects" = w := by
  obtain ⟨l, rfl, helems⟩ :
      ∃ l, w = vArr l ∧ ∀ e ∈ JSList.toList l, ∃ s, e = vStr s ∧ s ≠ "" := by
    rw [← hw]
    cases v with
    | vStr s =>
      refine ⟨_, rfl, ?_⟩
      show ∀ e ∈ (strListToJS (splitTrimFilterStr s)).toList, _
      rw [strListToJS_toList]
      intro e he
      rcases List.mem_map.mp he with ⟨x, hx, hval⟩
      exact ⟨x, hval.symm, (splitTrimFilterStr_elems s x hx).1⟩
    | vArr l0 => exact ⟨_, rfl, selectsMapFilter_elems l0⟩
    | vNull =>
      refine ⟨_, rfl, ?_⟩
      intro e he
      rcases List.mem_singleton.mp he with rfl
      exact ⟨_, rfl, jsToString_ne_empty_of_not_str_arr vNull nofun nofun⟩
    | vUndefined =>
      refine ⟨_, rfl, ?_⟩
      intro e he
      rcases List.mem_singleton.mp he with rfl
      exact ⟨_, rfl, jsToString_ne_empty_of_not_str_arr vUndefined nofun nofun⟩
    | vBool b =>
      refine ⟨_, rfl, ?_⟩
      intro e he
      rcases List.mem_singleton.mp he with rfl
      exact ⟨_, rfl, jsToString_ne_empty_of_not_str_arr (vBool b) nofun nofun⟩
    | vNum q =>
      refine ⟨_, rfl, ?_⟩
      intro e he
      rcases List.mem_singleton.mp he with rfl
      exact ⟨_, rfl, jsToString_ne_empty_of_not_str_arr (vNum q) nofun nofun⟩
    | vDate iso =>
      refine ⟨_, rfl, ?_⟩
      intro e he
      rcases List.mem_singleton.mp he with rfl
      exact ⟨_, rfl, jsToString_ne_empty_of_not_str_arr (vDate iso) nofun nofun⟩
    | vObj props =>
      refine ⟨_, rfl, ?_⟩
      intro e he
      rcases List.mem_singleton.mp he with rfl
      exact ⟨_, rfl, jsToString_ne_empty_of_not_str_arr (vObj props) nofun nofun⟩
  show vArr (selectsMapFilter l) = vArr l
  rw [selectsMapFilter_id l helems]

/-- Attachment re-transformation is the identity on transform
outputs. -/
lemma retransform_attach (n : String) (v w : JSVal)
    (hw : transformByFieldType n v "multipleAttachments" = w) :
    transformByFieldType n w "multipleAttachments" = w := by
  obtain ⟨l, rfl, helems⟩ :
      ∃ l, w = vArr l ∧ ∀ e ∈ JSList.toList l,
        jsTypeofStr e = "object" ∧ e ≠ vNull ∧ jsTruthy (jsGetProp e "url") = true := by
    rw [← hw]
    cases v with
    | vStr s =>
      by_cases hs : startsWithHttp s = true
      · refine ⟨JSList.cons (vObj (JSProps.cons "url" (vStr s) JSProps.nil)) JSList.nil,
          ?_, ?_⟩
        · simp only [transformByFieldType]
          rw [if_pos hs]
        · intro e he
          rcases List.mem_singleton.mp he with rfl
          refine ⟨rfl, by simp, ?_⟩
          show jsTruthy (vStr s) = true
          simp [jsTruthy, ne_empty_of_startsWithHttp hs]
      · refine ⟨.nil, ?_, by intro e he; simp [JSList.toList] at he⟩
        simp only [transformByFieldType]
        rw [if_neg hs]
    | vArr l0 => exact ⟨_, rfl, attachMapFilter_elems l0⟩
    | vNull => exact ⟨.nil, rfl, by intro e he; simp [JSList.toList] at he⟩
    | vUndefined => exact ⟨.nil, rfl, by intro e he; simp [JSList.toList] at he⟩
    | vBool b => exact ⟨.nil, rfl, by intro e he; simp [JSList.toList] at he⟩
    | vNum q => exact ⟨.nil, rfl, by intro e he; simp [JSList.toList] at he⟩
    | vDate iso => exact ⟨.nil, rfl, by intro e he; simp [JSList.toList] at he⟩
    | vObj props => exact ⟨.nil, rfl, by intro e he; simp [JSList.toList] at he⟩
  show vArr (attachMapFilter l) = vArr l
  rw [attachMapFilter_id l helems]

/-- Linked-record re-transformation is the identity on surviving
values (transform outputs that also pass the shape check). -/
lemma retransform_links (n : String) (v w : JSVal)
    (hw : transformByFieldType n v "multipleRecordLinks" = w)
    (hshape : isValidLinkedRecordShape w = true) :
    transformByFieldType n w "multipleRecordLinks" = w := by
  obtain ⟨l, rfl⟩ : ∃ l, w = vArr l := by
    cases w <;> first
      | exact ⟨_, rfl⟩
      | (exfalso; simp [isValidLinkedRecordShape] at hshape)
  have hsh2 : JSList.length l > 0 ∧
      ∀ e ∈ l.toList, (match e with
        | vStr s => ¬ startsWithHttp s
        | _ => false) = true := by
    have h2 := hshape
    unfold isValidLinkedRecordShape at h2
    rw [Bool.and_eq_true, JSList.all_eq_true] at h2
    exact ⟨by simpa using h2.1, h2.2⟩
  have helem_str : ∀ e ∈ l.toList, ∃ s, e = vStr s ∧ startsWithHttp s = false := by
    intro e he
    have h3 := hsh2.2 e he
    cases e with
    | vStr s => exact ⟨s, rfl, by simpa using h3⟩
    | vNull => simp at h3
    | vUndefined => simp at h3
    | vBool b => simp at h3
    | vNum q => simp at h3
    | vDate iso => simp at h3
    | vArr l2 => simp at h3
    | vObj props => simp at h3
  have helem_ne : ∀ e ∈ l.toList, e ≠ vStr "" := by
    cases v with
    | vArr l0 =>
      simp only [transformByFieldType] at hw
      by_cases hempty : ¬ jsTruthy (vArr l0) = true ∨ vArr l0 = vStr ""
          ∨ isEmptyArrJS (vArr l0) = true
      · rw [if_pos hempty] at hw
        exact absurd hw (by simp)
      · rw [if_neg hempty] at hw
        by_cases hz : JSList.length (linkIdsFilter l0) = 0
        · rw [if_pos hz] at hw
          exact absurd hw (by simp)
        · rw [if_neg hz] at hw
          have hl : linkIdsFilter l0 = l := by injection hw
          intro e he
          obtain ⟨s, rfl, hne, -⟩ := linkIdsFilter_elems l0 e (hl ▸ he)
          simp [hne]
    | vStr s =>
      simp only [transformByFieldType] at hw
      by_cases hempty : ¬ jsTruthy (vStr s) = true ∨ vStr s = vStr ""
          ∨ isEmptyArrJS (vStr s) = true
      · rw [if_pos hempty] at hw
        exact absurd hw (by simp)
      · rw [if_neg hempty] at hw
        by_cases hsch : startsWithHttpScheme s = true
        · rw [if_pos hsch] at hw
          exact absurd hw (by simp)
        · rw [if_neg hsch] at hw
          by_cases hcomma : containsSubChars [','] s.data = true
          · rw [if_pos hcomma] at hw
            have hl : strListToJS (splitTrimFilterStr s) = l := by injection hw
            intro e he
            rw [← hl, strListToJS_toList] at he
            rcases List.mem_map.mp he with ⟨x, hx, hval⟩
            rw [← hval]
            intro hcontr
            have := (splitTrimFilterStr_elems s x hx).1
            injection hcontr with h4
            exact this h4
          · rw [if_neg hcomma] at hw
            have hl : JSList.cons (vStr s) .nil = l := by injection hw
            intro e he
            rw [← hl] at he
            rcases List.mem_singleton.mp he with rfl
            have hst : s ≠ "" := by
              intro hrfl
              exact hempty (Or.inr (Or.inl (by rw [hrfl])))
            simp [hst]
    | vNull =>
      simp only [transformByFieldType] at hw
      split_ifs at hw <;> exact absurd hw (by simp)
    | vUndefined =>
      simp only [transformByFieldType] at hw
      split_ifs at hw <;> exact absurd hw (by simp)
    | vBool b =>
      simp only [transformByFieldType] at hw
      split_ifs at hw <;> exact absurd hw (by simp)
    | vNum q =>
      simp only [transformByFieldType] at hw
      split_ifs at hw <;> exact absurd hw (by simp)
    | vDate iso =>
      simp only [transformByFieldType] at hw
      split_ifs at hw <;> exact absurd hw (by simp)
    | vObj props =>
      simp only [transformByFieldType] at hw
      split_ifs at hw <;> exact absurd hw (by simp)
  have hfix : linkIdsFilter l = l := by
    refine linkIdsFilter_id l ?_
    intro e he
    obtain ⟨s, rfl, hhttp⟩ := helem_str e he
    refine ⟨s, rfl, ?_, ?_⟩
    · intro hrfl
      exact helem_ne _ he (by rw [hrfl])
    · by_cases hb : startsWithHttpScheme s = true
      · exact absurd (startsWithHttp_of_scheme hb) (by simp [hhttp])
      · simpa using hb
  have hcond : ¬ (¬ jsTruthy (vArr l) = true ∨ (vArr l) = vStr "" ∨
      isEmptyArrJS (vArr l) = true) := by
    rintro (h | h | h)
    · exact h rfl
    · exact absurd h (by simp)
    · unfold isEmptyArrJS at h
      simp only [decide_eq_true_eq] at h
      omega
  have hlen := hsh2.1
  simp only [transformByFieldType]
  rw [if_neg hcond, hfix, if_neg (by omega)]

/-- Filtering a present option reduces to a conditional. -/
lemma optFilter_some {α : Type} (p : α → Bool) (a : α) :
    Option.filter p (some a) = if p a then some a else none := rfl

/-- Re-transformation is the identity on every surviving non-textish
value: the output of one transform, when not the null exclusion
signal, and when the linked-record shape check also passed, is a fixed
point of the transform of its type. -/
lemma retransform_all (n : String) (v w : JSVal) (t : String)
    (hw : transformByFieldType n v t = w) (hnn : w ≠ vNull)
    (htx : textishType t = false)
    (hshape : t = "multipleRecordLinks" → isValidLinkedRecordShape w = true) :
    transformByFieldType n w t = w := by
  by_cases h1 : t = "multipleAttachments"
  · subst h1
    exact retransform_attach n v w hw
  by_cases h2 : t = "multipleRecordLinks"
  · subst h2
    exact retransform_links n v w hw (hshape rfl)
  by_cases h3 : t = "multipleSelects"
  · subst h3
    exact retransform_selects n v w hw
  by_cases h4 : t = "number"
  · exact retransform_numeric n v w (Or.inl h4) hw hnn
  by_cases h5 : t = "currency"
  · exact retransform_numeric n v w (Or.inr (Or.inl h5)) hw hnn
  by_cases h6 : t = "percent"
  · exact retransform_numeric n v w (Or.inr (Or.inr (Or.inl h6))) hw hnn
  by_cases h7 : t = "rating"
  · exact retransform_numeric n v w (Or.inr (Or.inr (Or.inr h7))) hw hnn
  by_cases h8 : t = "checkbox"
  · subst h8
    exact retransform_checkbox n v w hw
  by_cases h9 : t = "date"
  · exact retransform_datelike n v w (Or.inl h9) hw
  by_cases h10 : t = "dateTime"
  · exact retransform_datelike n v w (Or.inr h10) hw
  by_cases h11 : t = "url"
  · exact retransform_urlish n v w (Or.inl h11) hw
  by_cases h12 : t = "email"
  · exact retransform_urlish n v w (Or.inr (Or.inl h12)) hw
  by_cases h13 : t = "phoneNumber"
  · exact retransform_urlish n v w (Or.inr (Or.inr h13)) hw
  have h14 : ¬ t = "singleSelect" := by
    intro h
    rw [h] at htx
    exact absurd htx (by decide)
  have h15 : ¬ t = "singleLineText" := by
    intro h
    rw [h] at htx
    exact absurd htx (by decide)
  have h16 : ¬ t = "multilineText" := by
    intro h
    rw [h] at htx
    exact absurd htx (by decide)
  have h17 : ¬ t = "richText" := by
    intro h
    rw [h] at htx
    exact absurd htx (by decide)
  have hnk : t ∉ knownFieldTypes := by
    intro hmem
    simp only [knownFieldTypes, List.mem_cons, List.not_mem_nil, or_false] at hmem
    rcases hmem with rfl | rfl | rfl | rfl | rfl | rfl | rfl | rfl | rfl | rfl | rfl
      | rfl | rfl | rfl | rfl | rfl | rfl <;> contradiction
  exact transformByFieldType_default n w t hnk

/-- Every entry that survives one transformation-validation pass is a
transform fixed point (or a string under a textish type) and is
classified valid. -/
lemma survivors_ReOK (fields : List (String × JSVal))
    (schema : Option (List (String × String))) :
    ∀ p ∈ (pipelineTV fields schema).1,
      ReOK schema p.1 p.2 ∧ classifyField schema p.1 p.2 = FieldOutcome.valid := by
  intro p hp
  have hp2 : p ∈ (transformFieldsForAirtable fields schema).filter
      (fun q => classifyField schema q.1 q.2 = FieldOutcome.valid) := hp
  have hmem := (List.mem_filter.mp hp2).1
  have hcv : classifyField schema p.1 p.2 = FieldOutcome.valid := by
    have := (List.mem_filter.mp hp2).2
    simpa using this
  refine ⟨?_, hcv⟩
  unfold transformFieldsForAirtable at hmem
  rw [List.mem_filterMap] at hmem
  obtain ⟨q, hq, hbody⟩ := hmem
  simp only [] at hbody
  by_cases hskip : isSkipEmpty q.2 = true
  · rw [if_pos hskip] at hbody
    exact absurd hbody (by simp)
  · rw [if_neg hskip] at hbody
    cases hlook : schema.bind (fun s => truthyLookup s q.1) with
    | none =>
      simp only [hlook] at hbody
      have hp3 : p = (q.1, transformByHeuristic q.1 q.2) := by
        injection hbody with h
        exact h.symm
      cases schema with
      | none =>
        subst hp3
        show transformByHeuristic q.1 (transformByHeuristic q.1 q.2)
          = transformByHeuristic q.1 q.2
        exact transformByHeuristic_idem q.1 q.2
      | some s =>
        exfalso
        have hl2 : truthyLookup s q.1 = none := by simpa using hlook
        subst hp3
        have hcv2 : classifyField (some s) q.1 (transformByHeuristic q.1 q.2)
            = FieldOutcome.valid := hcv
        unfold classifyField at hcv2
        by_cases hskip2 : isSkipEmpty (transformByHeuristic q.1 q.2) = true
        · rw [if_pos hskip2] at hcv2
          exact FieldOutcome.noConfusion hcv2
        · rw [if_neg hskip2] at hcv2
          simp only [hl2] at hcv2
          exact FieldOutcome.noConfusion hcv2
    | some t =>
      simp only [hlook] at hbody
      by_cases hvn : transformByFieldType q.1 q.2 t = vNull
      · rw [if_pos hvn] at hbody
        exact absurd hbody (by simp)
      · rw [if_neg hvn] at hbody
        have hp3 : p = (q.1, transformByFieldType q.1 q.2 t) := by
          injection hbody with h
          exact h.symm
        cases schema with
        | none => simp at hlook
        | some s =>
          have hl2 : truthyLookup s q.1 = some t := by simpa using hlook
          subst hp3
          show ReOK (some s) q.1 (transformByFieldType q.1 q.2 t)
          have hcv2 : classifyField (some s) q.1 (transformByFieldType q.1 q.2 t)
              = FieldOutcome.valid := hcv
          simp only [ReOK, hl2]
          by_cases htx : textishType t = true
          · rw [if_pos htx]
            exact textish_transform q.1 q.2 htx
          · rw [if_neg htx]
            refine retransform_all q.1 q.2 _ t rfl hvn (by simpa using htx) ?_
            intro hteq
            subst hteq
            unfold classifyField at hcv2
            by_cases hskip2 : isSkipEmpty
                (transformByFieldType q.1 q.2 "multipleRecordLinks") = true
            · rw [if_pos hskip2] at hcv2
              exact FieldOutcome.noConfusion hcv2
            · rw [if_neg hskip2] at hcv2
              simp only [hl2] at hcv2
              by_contra hnsh
              rw [if_pos ⟨trivial, hnsh⟩] at hcv2
              exact FieldOutcome.noConfusion hcv2

/-- A second transform-then-classify of one surviving entry: the
filter verdict matches the second-pass characterization and no
exclusion diagnostic is produced. -/
lemma secondPass_pointwise (schema : Option (List (String × String)))
    (p : String × JSVal)
    (hre : ReOK schema p.1 p.2)
    (hcv : classifyField schema p.1 p.2 = FieldOutcome.valid) :
    Option.filter (fun q => decide (classifyField schema q.1 q.2 = FieldOutcome.valid))
        (if isSkipEmpty p.2 then none
         else
           match schema.bind (fun s => truthyLookup s p.1) with
           | some t =>
             if transformByFieldType p.1 p.2 t = vNull then none
             else some (p.1, transformByFieldType p.1 p.2 t)
           | none => some (p.1, transformByHeuristic p.1 p.2))
      = secondPassEntry schema p ∧
    Option.bind
        (if isSkipEmpty p.2 then none
         else
           match schema.bind (fun s => truthyLookup s p.1) with
           | some t =>
             if transformByFieldType p.1 p.2 t = vNull then none
             else some (p.1, transformByFieldType p.1 p.2 t)
           | none => some (p.1, transformByHeuristic p.1 p.2))
        (fun q =>
          match classifyField schema q.1 q.2 with
          | FieldOutcome.excluded e => some e
          | _ => none)
      = none := by
  have hskip : isSkipEmpty p.2 = false := by
    by_contra hns
    rw [Bool.not_eq_false] at hns
    unfold classifyField at hcv
    rw [if_pos hns] at hcv
    exact FieldOutcome.noConfusion hcv
  rw [if_neg (by simp [hskip])]
  cases hlook : schema.bind (fun s => truthyLookup s p.1) with
  | none =>
    simp only [hlook]
    cases schema with
    | none =>
      have hre2 : transformByHeuristic p.1 p.2 = p.2 := hre
      rw [hre2, Prod.mk.eta]
      constructor
      · rw [optFilter_some, if_pos (by simp [hcv])]
        unfold secondPassEntry
        rfl
      · rw [Option.some_bind]
        simp [hcv]
    | some s =>
      exfalso
      have hl2 : truthyLookup s p.1 = none := by simpa using hlook
      unfold classifyField at hcv
      rw [if_neg (by simp [hskip])] at hcv
      simp only [hl2] at hcv
      exact FieldOutcome.noConfusion hcv
  | some t =>
    obtain ⟨s0, rfl⟩ : ∃ s0, schema = some s0 := by
      cases schema with
      | none => simp at hlook
      | some s0 => exact ⟨s0, rfl⟩
    have hl2 : truthyLookup s0 p.1 = some t := by simpa using hlook
    simp only [hlook]
    have hre2 : (if textishType t = true then (∃ str, p.2 = vStr str)
        else transformByFieldType p.1 p.2 t = p.2) := by
      simpa [ReOK, hl2] using hre
    by_cases htx : textishType t = true
    · rw [if_pos htx] at hre2
      obtain ⟨str, hstr⟩ := hre2
      have htr : transformByFieldType p.1 p.2 t = vStr (stripQuotesTrim str) := by
        rw [hstr]
        exact textish_retransform p.1 str htx
      rw [htr, if_neg (by simp)]
      by_cases hs2 : stripQuotesTrim str = ""
      · have hcl : classifyField (some s0) p.1 (vStr (stripQuotesTrim str))
            = FieldOutcome.skip := by
          unfold classifyField
          rw [if_pos (by simp [isSkipEmpty, hs2])]
        constructor
        · rw [optFilter_some, if_neg (by simp [hcl])]
          unfold secondPassEntry
          simp [hlook, htx, hstr, hs2]
        · rw [Option.some_bind]
          simp [hcl]
      · have hcl : classifyField (some s0) p.1 (vStr (stripQuotesTrim str))
            = FieldOutcome.valid := by
          unfold classifyField
          rw [if_neg (by simp [isSkipEmpty, hs2])]
          simp only [hl2]
          rw [if_neg (by
            rintro ⟨hteq, -⟩
            exact textish_ne_mRL htx hteq)]
          rw [textish_validate p.1 (stripQuotesTrim str) htx]
        constructor
        · rw [optFilter_some, if_pos (by simp [hcl])]
          unfold secondPassEntry
          simp [hlook, htx, hstr, hs2]
        · rw [Option.some_bind]
          simp [hcl]
    · rw [if_neg htx] at hre2
      rw [hre2]
      have hnn : ¬ p.2 = vNull := by
        simp only [isSkipEmpty, Bool.or_eq_false_iff, decide_eq_false_iff_not] at hskip
        exact hskip.1.1
      rw [if_neg hnn, Prod.mk.eta]
      constructor
      · rw [optFilter_some, if_pos (by simp [hcv])]
        unfold secondPassEntry
        simp [hlook, htx]
      · rw [Option.some_bind]
        simp [hcv]

/-- One full transform-then-validate pass over a list of surviving
entries keeps everything except the textish entries the re-strip
empties, and excludes nothing. -/
lemma pipelineTV_second (l : List (String × JSVal))
    (schema : Option (List (String × String)))
    (h : ∀ p ∈ l, ReOK schema p.1 p.2 ∧
      classifyField schema p.1 p.2 = FieldOutcome.valid) :
    pipelineTV l schema = (l.filterMap (secondPassEntry schema), []) := by
  unfold pipelineTV validateAndFilterFields transformFieldsForAirtable
  refine Prod.ext ?_ ?_
  · show List.filter _ (List.filterMap _ l) = l.filterMap (secondPassEntry schema)
    rw [List.filter_filterMap]
    refine List.filterMap_congr ?_
    intro a ha
    exact (secondPass_pointwise schema a (h a ha).1 (h a ha).2).1
  · show List.filterMap _ (List.filterMap _ l) = ([] : List ExcludedField)
    rw [List.filterMap_filterMap]
    have hnone : l.filterMap (fun a =>
        Option.bind
          (if isSkipEmpty a.2 then none
           else
             match schema.bind (fun s => truthyLookup s a.1) with
             | some t =>
               if transformByFieldType a.1 a.2 t = vNull then none
               else some (a.1, transformByFieldType a.1 a.2 t)
             | none => some (a.1, transformByHeuristic a.1 a.2))
          (fun q =>
            match classifyField schema q.1 q.2 with
            | FieldOutcome.excluded e => some e
            | _ => none))
        = l.filterMap (fun _ => none) := by
      refine List.filterMap_congr ?_
      intro a ha
      exact (secondPass_pointwise schema a (h a ha).1 (h a ha).2).2
    rw [show (fun a => Option.bind _ _) = _ from rfl] at hnone
    rw [hnone]
    simp

/-- C5: the pipeline is not literally idempotent (see the
counterexample), but a second transformation-validation pass over the
saved fields excludes nothing, and acts as the per-entry second-pass
map: entries of singleSelect or text-like type are re-quote-stripped
and trimmed (dropped if emptied) and every other entry is returned
unchanged. -/
theorem c5_pipeline_second_pass :
    ∀ (contactData : List (String × JSVal))
      (fieldMappings : List (String × String))
      (schema : Option (List (String × String))),
      pipelineTV (runPipeline contactData fieldMappings schema).1 schema
        = ((runPipeline contactData fieldMappings schema).1.filterMap
            (secondPassEntry schema), []) := by
  intro contactData fieldMappings schema
  exact pipelineTV_second (runPipeline contactData fieldMappings schema).1 schema
    (survivors_ReOK (mapContactDataToAirtable contactData fieldMappings) schema)

end LinkedInAirtable
